import Mathlib

/-!
Verification of the notes web application (Go) keyword subsystem:
the date-phrase recognizer `extractDateKeywords`, the keyword merge
policy inside `extractKeywords`, and the note create/edit handler
flows that persist notes and note-keyword associations.

Strings are modelled as lists of characters (`GoStr`).  Time is
modelled by the current civil day number (days since the Unix epoch,
an `Int`), since `time.Now()` is only used through `Format`,
`AddDate(0, 0, n)` and `Weekday()`, all of which factor through the
civil day.  The SQLite store is modelled as an explicit state record,
and the external collaborators (environment variable, HTTP transport,
JSON codec from the Go standard library) are injected as parameters.
-/

set_option autoImplicit false
set_option linter.unusedVariables false

namespace NotesApp

/-- Go strings, modelled as lists of characters. -/
abbrev GoStr := List Char

/-- Turn a Lean string literal into the `GoStr` model. -/
def str (s : String) : GoStr := s.data

/-- ASCII digit test (`regexp` class `\d`). -/
def isDigitChar (c : Char) : Bool := '0' ≤ c && c ≤ '9'

/-- ASCII word character, the class RE2 uses for the `\b` assertion:
letters, digits and underscore. -/
def isWordChar (c : Char) : Bool :=
  ('a' ≤ c && c ≤ 'z') || ('A' ≤ c && c ≤ 'Z') || isDigitChar c || c = '_'

/-- Numeric value of an ASCII digit character. -/
def digitVal (c : Char) : Nat := c.toNat - 48

/-- Lower-casing of one character as `strings.ToLower` does, restricted
to the ASCII range and the Latin-1 uppercase letters (which covers the
Norwegian vocabulary of the recognizer; `strings.ToLower` is full
Unicode, identical on these code points). -/
def goToLowerChar (c : Char) : Char :=
  if 'A' ≤ c && c ≤ 'Z' then Char.ofNat (c.toNat + 32)
  else if 0xC0 ≤ c.toNat && c.toNat ≤ 0xDE && c.toNat ≠ 0xD7 then
    Char.ofNat (c.toNat + 32)
  else c

/-- Model of `strings.ToLower`. -/
def goToLower (s : GoStr) : GoStr := s.map goToLowerChar

/-- Model of `strings.Contains hay needle`. -/
def containsSub (hay needle : GoStr) : Bool :=
  match hay with
  | [] => needle.isEmpty
  | _ :: t => needle.isPrefixOf hay || containsSub t needle

/-! ## Civil calendar arithmetic

`time.Time` values are instants; the handlers use only the civil date
of the instant.  `civilFromDays` converts a day number (days since
1970-01-01) to a Gregorian date, following the standard civil-calendar
algorithm, matching Go `time` package behaviour for `Format` and
`AddDate(0, 0, n)`. -/

/-- A Gregorian civil date. -/
structure Date where
  year : Int
  month : Nat
  day : Nat
deriving DecidableEq, Repr

/-- Gregorian leap-year test. -/
def isLeapYear (y : Int) : Bool :=
  y % 4 = 0 && (y % 100 ≠ 0 || y % 400 = 0)

/-- Number of days in a month (Gregorian). -/
def daysInMonth (m : Nat) (y : Int) : Nat :=
  if m = 1 then 31
  else if m = 2 then (if isLeapYear y then 29 else 28)
  else if m = 3 then 31
  else if m = 4 then 30
  else if m = 5 then 31
  else if m = 6 then 30
  else if m = 7 then 31
  else if m = 8 then 31
  else if m = 9 then 30
  else if m = 10 then 31
  else if m = 11 then 30
  else 31

/-- Civil date from a day number (days since 1970-01-01). -/
def civilFromDays (z0 : Int) : Date :=
  let z : Int := z0 + 719468
  let era : Int := Int.fdiv z 146097
  let doe : Nat := (z - era * 146097).toNat
  let yoe : Nat := (doe - doe / 1460 + doe / 36524 - doe / 146096) / 365
  let doy : Nat := doe - (365 * yoe + yoe / 4 - yoe / 100)
  let mp : Nat := (5 * doy + 2) / 153
  let d : Nat := doy - (153 * mp + 2) / 5 + 1
  let m : Nat := if mp < 10 then mp + 3 else mp - 9
  ⟨(yoe : Int) + era * 400 + (if m ≤ 2 then 1 else 0), m, d⟩

/-- Go weekday number (Sunday = 0 … Saturday = 6) of a day number;
day 0 (1970-01-01) is a Thursday. -/
def weekdayOfDay (n : Int) : Nat := ((n + 4) % 7).toNat

/-- Decimal digits of a natural number, padded with leading zeros. -/
def padNat (width n : Nat) : GoStr :=
  let ds := Nat.toDigits 10 n
  List.replicate (width - ds.length) '0' ++ ds

/-- Format a civil date the way Go formats layout `2006-01-02`. -/
def formatISO (d : Date) : GoStr :=
  (if d.year < 0 then ['-'] else []) ++ padNat 4 d.year.natAbs
    ++ ['-'] ++ padNat 2 d.month ++ ['-'] ++ padNat 2 d.day

/-- Format the civil date of a day number (`now.Format("2006-01-02")`). -/
def formatDay (n : Int) : GoStr := formatISO (civilFromDays n)

/-! ## The ISO-pattern scanner

Model of `regexp.MustCompile` with the pattern of ten characters
`\b` `\d` 4 `-` `\d` 2 `-` `\d` 2 `\b` and its `FindAllString` scan:
left to right, at each position a match is tried (the leading `\b`
holds when the previous character, tracked by the `pw` flag, is not a
word character), and on success the scan resumes after the match. -/

/-- Does the list start with the ten-character ISO date shape followed
by a word boundary (end of input or a non-word character)? -/
def isoHeadMatch (l : GoStr) : Bool :=
  match l with
  | c0 :: c1 :: c2 :: c3 :: c4 :: c5 :: c6 :: c7 :: c8 :: c9 :: rest =>
      isDigitChar c0 && isDigitChar c1 && isDigitChar c2 && isDigitChar c3
        && c4 = '-' && isDigitChar c5 && isDigitChar c6 && c7 = '-'
        && isDigitChar c8 && isDigitChar c9
        && (match rest with | [] => true | r :: _ => !isWordChar r)
  | _ => false

/-- The `FindAllString` scan for the ISO date pattern.  `pw` records
whether the character just before the current position is a word
character (false at the start of the text).  The extra fuel argument
makes the recursion structural; every step consumes at least one
character, so any fuel of at least the text length gives the full
scan. -/
def isoScanAux : Nat → Bool → GoStr → List GoStr
  | 0, _, _ => []
  | _ + 1, _, [] => []
  | fuel + 1, pw, c :: t =>
      if !pw && isoHeadMatch (c :: t) then
        (c :: t).take 10 :: isoScanAux fuel true ((c :: t).drop 10)
      else
        isoScanAux fuel (isWordChar c) t

/-- All ISO-pattern matches of the text, in text order. -/
def isoMatches (text : GoStr) : List GoStr :=
  isoScanAux text.length false text

/-- The word-boundary assertion `\b` at position `i` of a suffix whose
preceding character is a word character exactly when `pw` is true: the
previous character (or the incoming flag at position 0) must not be a
word character. -/
def boundAt (pw : Bool) (l : GoStr) : Nat → Bool
  | 0 => !pw
  | j + 1 =>
      match l.drop j with
      | [] => false
      | c :: _ => !isWordChar c

/-- A boundary-delimited ISO-shape match at position `i`: the `\b`
assertion holds at `i` and the ten characters from `i` have the ISO
shape followed by another `\b`. -/
def boundIsoAt (pw : Bool) (l : GoStr) (i : Nat) : Bool :=
  boundAt pw l i && isoHeadMatch (l.drop i)

/-- The bare ISO shape `\d{4}-\d{2}-\d{2}` as a whole-string test,
with no boundary condition — the claim C5 quantifies over these. -/
def isoPureShape (s : GoStr) : Bool :=
  match s with
  | [c0, c1, c2, c3, c4, c5, c6, c7, c8, c9] =>
      isDigitChar c0 && isDigitChar c1 && isDigitChar c2 && isDigitChar c3
        && c4 = '-' && isDigitChar c5 && isDigitChar c6 && c7 = '-'
        && isDigitChar c8 && isDigitChar c9
  | _ => false

/-! ## The day-month-year scanner

Model of the pattern `\b(\d{1,2})[./](\d{1,2})[./](\d{4})\b` and its
`FindAllString` scan.  A match is represented by its parts so later
lemmas can speak about the digit groups; the matched string itself is
`DMYParts.raw`. -/

/-- Separator class `[./]`. -/
def isSepChar (c : Char) : Bool := c = '.' || c = '/'

/-- The parts of one day-month-year match. -/
structure DMYParts where
  dayDigits : GoStr
  sep1 : Char
  monDigits : GoStr
  sep2 : Char
  yearDigits : GoStr
deriving DecidableEq, Repr

/-- The matched substring of a day-month-year match. -/
def DMYParts.raw (p : DMYParts) : GoStr :=
  p.dayDigits ++ [p.sep1] ++ p.monDigits ++ [p.sep2] ++ p.yearDigits

/-- Well-formedness of the parts of a day-month-year match: one or two
day digits, a separator, one or two month digits, a separator, exactly
four year digits. -/
def DMYParts.WF (p : DMYParts) : Prop :=
  ((∃ a, p.dayDigits = [a] ∧ isDigitChar a = true)
    ∨ (∃ a b, p.dayDigits = [a, b] ∧ isDigitChar a = true ∧ isDigitChar b = true))
  ∧ isSepChar p.sep1 = true
  ∧ ((∃ a, p.monDigits = [a] ∧ isDigitChar a = true)
    ∨ (∃ a b, p.monDigits = [a, b] ∧ isDigitChar a = true ∧ isDigitChar b = true))
  ∧ isSepChar p.sep2 = true
  ∧ (∃ a b c d, p.yearDigits = [a, b, c, d] ∧ isDigitChar a = true
      ∧ isDigitChar b = true ∧ isDigitChar c = true ∧ isDigitChar d = true)

/-- Decimal value of a digit string. -/
def natOfDigits (s : GoStr) : Nat := s.foldl (fun a c => 10 * a + digitVal c) 0

/-- Try to read `[./](\d{4})\b` after the month digits of a
day-month-year match. -/
def tryDMYMon (s1 : Char) (mon : GoStr) (l : GoStr) :
    Option ((Char × GoStr × Char × GoStr) × GoStr) :=
  match l with
  | s2 :: y1 :: y2 :: y3 :: y4 :: rest =>
      if isSepChar s2 && isDigitChar y1 && isDigitChar y2 && isDigitChar y3
          && isDigitChar y4
          && (match rest with | [] => true | r :: _ => !isWordChar r) then
        some ((s1, mon, s2, [y1, y2, y3, y4]), rest)
      else none
  | _ => none

/-- Try to read `[./](\d{1,2})[./](\d{4})\b` after the day digits have
been consumed, producing the remaining parts of a match. -/
def tryDMYAfterDay (l : GoStr) : Option ((Char × GoStr × Char × GoStr) × GoStr) :=
  match l with
  | s1 :: m1 :: rest =>
      if isSepChar s1 && isDigitChar m1 then
        match rest with
        | m2 :: rest2 =>
            if isDigitChar m2 then tryDMYMon s1 [m1, m2] rest2
            else tryDMYMon s1 [m1] rest
        | [] => none
      else none
  | _ => none

/-- Try to match the whole day-month-year pattern at the head of the
list, greedily reading one or two day digits as the regular expression
engine does. -/
def tryDMY (l : GoStr) : Option (DMYParts × GoStr) :=
  match l with
  | d1 :: rest =>
      if isDigitChar d1 then
        match rest with
        | d2 :: rest2 =>
            if isDigitChar d2 then
              (tryDMYAfterDay rest2).map
                (fun pr => (⟨[d1, d2], pr.1.1, pr.1.2.1, pr.1.2.2.1, pr.1.2.2.2⟩, pr.2))
            else
              (tryDMYAfterDay rest).map
                (fun pr => (⟨[d1], pr.1.1, pr.1.2.1, pr.1.2.2.1, pr.1.2.2.2⟩, pr.2))
        | [] => none
      else none
  | [] => none

/-- The bare day-month-year shape `\d{1,2}[./]\d{1,2}[./]\d{4}` as a
whole-string test (the trailing boundary of `tryDMY` is vacuous on an
empty remainder) — claim C6 quantifies over substrings of this
shape. -/
def dmyPureShape (s : GoStr) : Bool :=
  match tryDMY s with
  | some pr => pr.2.isEmpty
  | none => false

/-- The `FindAllString` scan for the day-month-year pattern, with the
same structural fuel as the ISO scan (a successful match always
consumes at least one character, see `tryDMY_rest_lt`). -/
def dmyScanAux : Nat → Bool → GoStr → List DMYParts
  | 0, _, _ => []
  | _ + 1, _, [] => []
  | fuel + 1, pw, c :: t =>
      if pw then dmyScanAux fuel (isWordChar c) t
      else
        match tryDMY (c :: t) with
        | some pr => pr.1 :: dmyScanAux fuel true pr.2
        | none => dmyScanAux fuel (isWordChar c) t

/-- All day-month-year matches of the text, in text order. -/
def dmyMatches (text : GoStr) : List DMYParts :=
  dmyScanAux text.length false text

/-! ## Go `time.Parse` for the two day-month-year layouts

The code normalizes a match (`.` and `/` become `-`) and then tries
`time.Parse("2-1-2006", norm)` followed by
`time.Parse("02-01-2006", norm)`.  The layouts read a day, a month and
a four-digit year separated by dashes; layout element `2` (and `1`)
accepts one digit, or two if the second character is also a digit,
while `02` (and `01`) demands exactly two digits.  After reading, the
month must lie in 1..12 and the day in 1..daysInMonth, otherwise
parsing fails. -/

/-- Go `getnum` for a non-padded layout element: one digit, or two if
the next character is also a digit. -/
def getnum2 (l : GoStr) : Option (Nat × GoStr) :=
  match l with
  | c1 :: c2 :: rest =>
      if isDigitChar c1 then
        if isDigitChar c2 then some (digitVal c1 * 10 + digitVal c2, rest)
        else some (digitVal c1, c2 :: rest)
      else none
  | [c1] => if isDigitChar c1 then some (digitVal c1, []) else none
  | [] => none

/-- Go `getnum` for a zero-padded layout element: exactly two digits. -/
def getnum2Fixed (l : GoStr) : Option (Nat × GoStr) :=
  match l with
  | c1 :: c2 :: rest =>
      if isDigitChar c1 && isDigitChar c2 then
        some (digitVal c1 * 10 + digitVal c2, rest)
      else none
  | _ => none

/-- Go layout element `2006`: exactly four digits. -/
def getnum4 (l : GoStr) : Option (Nat × GoStr) :=
  match l with
  | c1 :: c2 :: c3 :: c4 :: rest =>
      if isDigitChar c1 && isDigitChar c2 && isDigitChar c3 && isDigitChar c4 then
        some (digitVal c1 * 1000 + digitVal c2 * 100 + digitVal c3 * 10
          + digitVal c4, rest)
      else none
  | _ => none

/-- Expect a literal dash. -/
def expectDash (l : GoStr) : Option GoStr :=
  match l with
  | c :: rest => if c = '-' then some rest else none
  | [] => none

/-- The range validation Go `time.Parse` performs on day and month. -/
def validateDMY (day mon year : Nat) : Option Date :=
  if 1 ≤ mon && mon ≤ 12 && 1 ≤ day && day ≤ daysInMonth mon (year : Int) then
    some ⟨(year : Int), mon, day⟩
  else none

/-- Model of `time.Parse("2-1-2006", l)` (day, month, four-digit year,
single-digit-tolerant), requiring the whole input to be consumed. -/
def goParseDMYLoose (l : GoStr) : Option Date :=
  match getnum2 l with
  | none => none
  | some (day, l1) =>
      match expectDash l1 with
      | none => none
      | some l2 =>
          match getnum2 l2 with
          | none => none
          | some (mon, l3) =>
              match expectDash l3 with
              | none => none
              | some l4 =>
                  match getnum4 l4 with
                  | none => none
                  | some (year, l5) =>
                      if l5 = [] then validateDMY day mon year else none

/-- Model of `time.Parse("02-01-2006", l)` (zero-padded day and month,
four-digit year), requiring the whole input to be consumed. -/
def goParseDMYPadded (l : GoStr) : Option Date :=
  match getnum2Fixed l with
  | none => none
  | some (day, l1) =>
      match expectDash l1 with
      | none => none
      | some l2 =>
          match getnum2Fixed l2 with
          | none => none
          | some (mon, l3) =>
              match expectDash l3 with
              | none => none
              | some l4 =>
                  match getnum4 l4 with
                  | none => none
                  | some (year, l5) =>
                      if l5 = [] then validateDMY day mon year else none

/-- Model of the separator normalization
`strings.ReplaceAll(strings.ReplaceAll(match, ".", "-"), "/", "-")`
(both patterns are single characters, so this is a character map). -/
def normalizeSeps (s : GoStr) : GoStr :=
  s.map (fun c => if c = '.' then '-' else if c = '/' then '-' else c)

/-- The contribution of one raw day-month-year match string: normalize
the separators, try the tolerant parse and then the padded parse, and
on success reformat the date as `2006-01-02`; otherwise the match is
dropped. -/
def dmyToISODate (m : GoStr) : Option GoStr :=
  let norm := normalizeSeps m
  match goParseDMYLoose norm with
  | some t => some (formatISO t)
  | none =>
      match goParseDMYPadded norm with
      | some t2 => some (formatISO t2)
      | none => none

/-! ## Deduplication and the recognizer -/

/-- The dedupe loop at the end of `extractDateKeywords`: keep the
first occurrence of each date, tracking the already-seen dates. -/
def dedupeGo (seen : List GoStr) : List GoStr → List GoStr
  | [] => []
  | d :: ds => if d ∈ seen then dedupeGo seen ds else d :: dedupeGo (d :: seen) ds

/-- The weekday vocabulary of the recognizer with the Go
`time.Weekday` value of each name (Sunday = 0).  In the source this is
a Go map literal; a `range` loop over a map visits entries in an
unspecified, per-iteration randomized order, so the scan order is kept
as an explicit parameter `wdOrder` that ranges over the permutations
of this list. -/
def stdWeekdays : List (GoStr × Nat) :=
  [(str "mandag", 1), (str "tirsdag", 2), (str "onsdag", 3),
   (str "torsdag", 4), (str "fredag", 5), (str "lørdag", 6),
   (str "søndag", 0)]

/-- Model of `extractDateKeywords`.  `today` is the civil day number
of `time.Now()` and `wdOrder` the iteration order of the weekday map.
The body follows the source line by line: the three relative-day
checks, the weekday loop, the ISO-pattern scan, the day-month-year
scan, and the final dedupe. -/
def extractDateKeywords (today : Int) (wdOrder : List (GoStr × Nat))
    (noteContent : GoStr) : List GoStr :=
  let lower := goToLower noteContent
  let dates : List GoStr := []
  let dates := if containsSub lower (str "i dag")
    then dates ++ [formatDay today] else dates
  let dates := if containsSub lower (str "i går")
    then dates ++ [formatDay (today - 1)] else dates
  let dates := if containsSub lower (str "i morgen")
    then dates ++ [formatDay (today + 1)] else dates
  let dates := dates ++ wdOrder.filterMap (fun nw =>
    if containsSub lower nw.1 then
      some (formatDay (today + ((nw.2 : Int) - (weekdayOfDay today : Int) + 7) % 7))
    else none)
  let dates := dates ++ isoMatches noteContent
  let dates := dates ++ (dmyMatches noteContent).filterMap
    (fun p => dmyToISODate p.raw)
  dedupeGo [] dates

/-! ## The keyword merge policy (tail of `extractKeywords`) -/

/-- The merge loop of `extractKeywords`: each date keyword is appended
to the keyword list unless it already occurs in it. -/
def mergeLoop (acc : List GoStr) : List GoStr → List GoStr
  | [] => acc
  | d :: ds => if d ∈ acc then mergeLoop acc ds else mergeLoop (acc ++ [d]) ds

/-- The keyword merge policy: fold the recognizer output for the note
content into the remote-suggested keyword list. -/
def mergeDateKeywords (suggested : List GoStr) (today : Int)
    (wdOrder : List (GoStr × Nat)) (noteContent : GoStr) : List GoStr :=
  mergeLoop suggested (extractDateKeywords today wdOrder noteContent)

/-- The relative-day rule outputs, in today/yesterday/tomorrow order. -/
def relativeDates (today : Int) (lower : GoStr) : List GoStr :=
  (if containsSub lower (str "i dag") then [formatDay today] else [])
    ++ (if containsSub lower (str "i går") then [formatDay (today - 1)] else [])
    ++ (if containsSub lower (str "i morgen") then [formatDay (today + 1)] else [])

/-- The weekday rule outputs in the order the weekday map is
iterated. -/
def weekdayDates (today : Int) (wdOrder : List (GoStr × Nat))
    (lower : GoStr) : List GoStr :=
  wdOrder.filterMap (fun nw =>
    if containsSub lower nw.1 then
      some (formatDay (today + ((nw.2 : Int) - (weekdayOfDay today : Int) + 7) % 7))
    else none)

/-- The day-month-year rule outputs, in text order. -/
def dmyDates (text : GoStr) : List GoStr :=
  (dmyMatches text).filterMap (fun p => dmyToISODate p.raw)

/-! ## Reply post-processing in `extractKeywords`

The reply content is trimmed, an optional fenced code block is
unwrapped, and the substring between the first opening brace and the
last closing brace is extracted before the keywords JSON is decoded. -/

/-- White-space class of Go `unicode.IsSpace` on the Latin-1 range. -/
def isSpaceChar (c : Char) : Bool :=
  c = ' ' || c = '\t' || c = '\n' || (c.toNat = 11) || (c.toNat = 12)
    || c = '\r' || c.toNat = 0x85 || c.toNat = 0xA0

/-- Model of `strings.TrimSpace`. -/
def goTrimSpace (s : GoStr) : GoStr :=
  ((s.dropWhile isSpaceChar).reverse.dropWhile isSpaceChar).reverse

/-- The markdown fence marker. -/
def fenceMark : GoStr := str "```"

/-- Opening brace character. -/
def braceL : Char := Char.ofNat 123

/-- Closing brace character. -/
def braceR : Char := Char.ofNat 125

/-- Model of taking `parts[1]` of `strings.SplitN(s, "\n", 2)` when a
newline exists, and `s` itself otherwise. -/
def afterFirstNewline (s : GoStr) : GoStr :=
  match s.findIdx? (fun c => c = '\n') with
  | some i => s.drop (i + 1)
  | none => s

/-- Model of `strings.TrimSuffix(s, "```")`. -/
def dropFenceSuffix (s : GoStr) : GoStr :=
  if fenceMark.isSuffixOf s then s.take (s.length - 3) else s

/-- Model of the brace extraction: the segment from the first opening
brace to the last closing brace, when the latter comes after the
former. -/
def extractBraced (s : GoStr) : GoStr :=
  match s.findIdx? (fun c => c = braceL) with
  | none => s
  | some start =>
      match s.reverse.findIdx? (fun c => c = braceR) with
      | none => s
      | some j =>
          let e := s.length - 1 - j
          if start < e then (s.take (e + 1)).drop start else s

/-- The whole clean-up pipeline applied to the raw reply content. -/
def cleanReply (raw : GoStr) : GoStr :=
  let c := goTrimSpace raw
  let c := if fenceMark.isPrefixOf c
    then goTrimSpace (dropFenceSuffix (afterFirstNewline c)) else c
  extractBraced c

/-! ## `extractKeywords`

The function talks to the OpenAI chat-completion endpoint.  All
effects and standard-library collaborators are injected through
`KwEnv`: the `OPENAI_API_KEY` environment variable, the two
`json.Marshal` calls and `http.NewRequest` (whose error results are
injected directly, as only their success or failure influences the
control flow), the HTTP round trip, the body read, and the two
`json.Unmarshal` decodings.  The system and user prompt strings are
elided: they only feed the injected HTTP collaborator.  The Go return
convention `([]string, error)` is kept as a pair of the slice (`[]`
standing for Go `nil`) and an optional error. -/

/-- The decoded shape of a chat-completion response: the content
string of each choice message. -/
structure ChatResp where
  choices : List GoStr

/-- An HTTP response: status code and the outcome of reading the
body. -/
structure HResp where
  status : Nat
  body : Except GoStr GoStr

/-- The injected collaborators of `extractKeywords`. -/
structure KwEnv where
  apiKey : GoStr
  marshalExistingErr : Option GoStr
  marshalBodyErr : Option GoStr
  newRequestErr : Option GoStr
  doResult : Except GoStr HResp
  unmarshalResp : GoStr → Except GoStr ChatResp
  unmarshalKeywords : GoStr → Except GoStr (List GoStr)

/-- Model of `extractKeywords`, following the source branch by branch;
`today` and `wdOrder` stand for the `time.Now()` call inside
`extractDateKeywords` and the weekday-map iteration order. -/
def extractKeywords (env : KwEnv) (today : Int) (wdOrder : List (GoStr × Nat))
    (noteContent : GoStr) (existing : List GoStr) : List GoStr × Option GoStr :=
  if env.apiKey = [] then ([], some (str "OPENAI_API_KEY not set"))
  else match env.marshalExistingErr with
  | some e => ([], some e)
  | none => match env.marshalBodyErr with
    | some e => ([], some e)
    | none => match env.newRequestErr with
      | some e => ([], some e)
      | none => match env.doResult with
        | .error e => ([], some e)
        | .ok resp =>
            if resp.status ≠ 200 then
              ([], some (str "chat completion request returned non-OK status"))
            else match resp.body with
            | .error e => ([], some e)
            | .ok bytes => match env.unmarshalResp bytes with
              | .error e => ([], some e)
              | .ok respData => match respData.choices with
                | [] => ([], some (str "no choices in chat completion response"))
                | raw :: _ =>
                    match env.unmarshalKeywords (cleanReply raw) with
                    | .error e => ([], some e)
                    | .ok parsed =>
                        (mergeDateKeywords parsed today wdOrder noteContent, none)

/-! ## The store and the handler flows

The SQLite store is modelled by the lists of note rows, keyword names
(the `keywords` table, in insertion order; the integer primary key is
determined by the name through the `UNIQUE` constraint, so names
suffice), and note-keyword association pairs.  `INSERT OR IGNORE`
becomes append-if-absent. -/

/-- The database state. -/
structure DBState where
  notes : List (GoStr × GoStr)
  keywords : List GoStr
  noteKeywords : List (GoStr × GoStr)
deriving DecidableEq, Repr

/-- Model of `INSERT OR IGNORE INTO keywords(name) VALUES(?)`. -/
def upsertKeyword (st : DBState) (name : GoStr) : DBState :=
  if name ∈ st.keywords then st
  else { st with keywords := st.keywords ++ [name] }

/-- Model of `INSERT OR IGNORE INTO note_keywords(note_id, keyword_id)
VALUES(?, ?)` (the keyword id is resolved from the name). -/
def linkNoteKeyword (st : DBState) (nid name : GoStr) : DBState :=
  if (nid, name) ∈ st.noteKeywords then st
  else { st with noteKeywords := st.noteKeywords ++ [(nid, name)] }

/-- The per-name body of the keyword loops in both handlers: upsert
the keyword and link it to the note. -/
def addKeywordTo (st : DBState) (nid name : GoStr) : DBState :=
  linkNoteKeyword (upsertKeyword st name) nid name

/-- The keyword loop of both handlers over a list of names. -/
def applyKeywords (st : DBState) (nid : GoStr) (names : List GoStr) : DBState :=
  names.foldl (fun s n => addKeywordTo s nid n) st

/-- Model of `strings.Split(s, ",")`. -/
def splitOnComma : GoStr → List GoStr
  | [] => [[]]
  | c :: t =>
      if c = ',' then [] :: splitOnComma t
      else
        match splitOnComma t with
        | h :: r => (c :: h) :: r
        | [] => [[c]]

/-- The explicit keyword names of a form value: split on commas, trim
each part, skip parts that are empty after trimming. -/
def explicitKeywordNames (kwInput : GoStr) : List GoStr :=
  ((splitOnComma kwInput).map goTrimSpace).filter (fun n => n ≠ [])

/-- Model of `DELETE FROM note_keywords WHERE note_id = ?`. -/
def clearNoteKeywords (st : DBState) (nid : GoStr) : DBState :=
  { st with noteKeywords := st.noteKeywords.filter (fun p => p.1 ≠ nid) }

/-- Model of `UPDATE notes SET content = ? WHERE id = ?`. -/
def updateNoteRow (st : DBState) (noteID content : GoStr) : DBState :=
  { st with notes := st.notes.map (fun p => if p.1 = noteID then (p.1, content) else p) }

/-- The keyword-writing phase shared by both handlers: an explicit
non-empty `keywords` form value wins; otherwise `extractKeywords` is
consulted and its result applied only when it returned no error.
Returns the new state and whether `extractKeywords` was called. -/
def keywordPhase (env : KwEnv) (today : Int) (wdOrder : List (GoStr × Nat))
    (st : DBState) (nid content kwInput : GoStr) : DBState × Bool :=
  if kwInput ≠ [] then
    (applyKeywords st nid (explicitKeywordNames kwInput), false)
  else
    match (extractKeywords env today wdOrder content st.keywords).2 with
    | some _ => (st, true)
    | none =>
        (applyKeywords st nid (extractKeywords env today wdOrder content st.keywords).1,
         true)

/-- Model of the POST path of `createNoteHandler`: reject empty
content, insert the note row, then run the keyword phase. -/
def createNoteFlow (env : KwEnv) (today : Int) (wdOrder : List (GoStr × Nat))
    (st : DBState) (nid content kwInput : GoStr) : Option (DBState × Bool) :=
  if content = [] then none
  else
    let st1 := { st with notes := st.notes ++ [(nid, content)] }
    some (keywordPhase env today wdOrder st1 nid content kwInput)

/-- Model of the POST path of `editNoteHandler`: reject empty content,
update the note row, delete all existing associations of the note,
then run the keyword phase. -/
def editNoteFlow (env : KwEnv) (today : Int) (wdOrder : List (GoStr × Nat))
    (st : DBState) (noteID content kwInput : GoStr) : Option (DBState × Bool) :=
  if content = [] then none
  else
    let st1 := updateNoteRow st noteID content
    let st2 := clearNoteKeywords st1 noteID
    some (keywordPhase env today wdOrder st2 noteID content kwInput)

/-- The keyword set written by `keywordPhase`: the trimmed explicit
names when a non-empty explicit value is supplied, the auto-extracted
keywords when extraction was consulted and succeeded, and nothing when
it failed. -/
def phaseKeys (env : KwEnv) (today : Int) (wdOrder : List (GoStr × Nat))
    (existing : List GoStr) (content kwInput : GoStr) : List GoStr :=
  if kwInput ≠ [] then explicitKeywordNames kwInput
  else if (extractKeywords env today wdOrder content existing).2 = none
    then (extractKeywords env today wdOrder content existing).1
    else []


theorem tryDMYMon_rest_le {s1 : Char} {mon l : GoStr}
    {pr : (Char × GoStr × Char × GoStr) × GoStr}
    (h : tryDMYMon s1 mon l = some pr) : pr.2.length ≤ l.length := by
  match l with
  | s2 :: y1 :: y2 :: y3 :: y4 :: rest =>
    simp only [tryDMYMon] at h
    split at h
    · cases h; simp only [List.length_cons]; omega
    · exact absurd h (by simp)
  | [] => simp [tryDMYMon] at h
  | [a] => simp [tryDMYMon] at h
  | [a, b] => simp [tryDMYMon] at h
  | [a, b, c] => simp [tryDMYMon] at h
  | [a, b, c, d] => simp [tryDMYMon] at h

theorem tryDMYAfterDay_rest_le {l : GoStr} {pr : (Char × GoStr × Char × GoStr) × GoStr}
    (h : tryDMYAfterDay l = some pr) : pr.2.length ≤ l.length := by
  match l with
  | [] => simp [tryDMYAfterDay] at h
  | [s1] => simp [tryDMYAfterDay] at h
  | s1 :: m1 :: rest =>
    simp only [tryDMYAfterDay] at h
    split at h
    · match rest with
      | [] => simp at h
      | m2 :: rest2 =>
        simp only at h
        split at h
        · have := tryDMYMon_rest_le h
          simp only [List.length_cons] at this ⊢; omega
        · have := tryDMYMon_rest_le h
          simp only [List.length_cons] at this ⊢; omega
    · exact absurd h (by simp)

theorem tryDMY_rest_lt {l : GoStr} {pr : DMYParts × GoStr}
    (h : tryDMY l = some pr) : pr.2.length < l.length := by
  match l with
  | [] => simp [tryDMY] at h
  | d1 :: rest =>
    simp only [tryDMY] at h
    split at h
    · match rest with
      | [] => simp at h
      | d2 :: rest2 =>
        simp only at h
        split at h
        · match h2 : tryDMYAfterDay rest2 with
          | none => rw [h2] at h; simp at h
          | some pr2 =>
            rw [h2] at h
            simp only [Option.map_some'] at h
            cases h
            have := tryDMYAfterDay_rest_le h2
            simp only [List.length_cons]; omega
        · match h2 : tryDMYAfterDay (d2 :: rest2) with
          | none => rw [h2] at h; simp at h
          | some pr2 =>
            rw [h2] at h
            simp only [Option.map_some'] at h
            cases h
            have := tryDMYAfterDay_rest_le h2
            simp only [List.length_cons] at this ⊢; omega
    · exact absurd h (by simp)

/-- The `existing` argument only feeds the prompt of the injected HTTP
collaborator, so the result does not depend on it. -/
theorem extractKeywords_existing_irrel (env : KwEnv) (today : Int)
    (wdOrder : List (GoStr × Nat)) (noteContent : GoStr)
    (e1 e2 : List GoStr) :
    extractKeywords env today wdOrder noteContent e1
      = extractKeywords env today wdOrder noteContent e2 := rfl

/-! ## Lemmas about deduplication and the merge loop -/

theorem mem_dedupeGo (a : GoStr) : ∀ (l seen : List GoStr),
    a ∈ dedupeGo seen l ↔ a ∈ l ∧ a ∉ seen := by
  intro l
  induction l with
  | nil => intro seen; simp [dedupeGo]
  | cons d ds ih =>
      intro seen
      simp only [dedupeGo]
      split
      · rename_i hd
        rw [ih]
        constructor
        · rintro ⟨h1, h2⟩; exact ⟨List.mem_cons_of_mem d h1, h2⟩
        · rintro ⟨h1, h2⟩
          rcases List.mem_cons.mp h1 with rfl | h1
          · exact absurd hd h2
          · exact ⟨h1, h2⟩
      · rename_i hd
        simp only [List.mem_cons, ih]
        constructor
        · rintro (rfl | ⟨h1, h2⟩)
          · exact ⟨Or.inl rfl, hd⟩
          · exact ⟨Or.inr h1, fun hs => h2 (Or.inr hs)⟩
        · rintro ⟨rfl | h1, h2⟩
          · exact Or.inl rfl
          · rcases eq_or_ne a d with rfl | hne
            · exact Or.inl rfl
            · exact Or.inr ⟨h1, by simp [hne, h2]⟩

theorem nodup_dedupeGo : ∀ (l seen : List GoStr), (dedupeGo seen l).Nodup := by
  intro l
  induction l with
  | nil => intro seen; simp [dedupeGo]
  | cons d ds ih =>
      intro seen
      simp only [dedupeGo]
      split
      · exact ih seen
      · refine List.nodup_cons.mpr ⟨fun hmem => ?_, ih (d :: seen)⟩
        exact ((mem_dedupeGo d ds (d :: seen)).mp hmem).2 (List.mem_cons_self d seen)

theorem mergeLoop_eq_append_filter : ∀ (ds acc : List GoStr), ds.Nodup →
    mergeLoop acc ds = acc ++ ds.filter (fun d => d ∉ acc) := by
  intro ds
  induction ds with
  | nil => intro acc _; simp [mergeLoop]
  | cons d rest ih =>
      intro acc hnd
      have hd : d ∉ rest := (List.nodup_cons.mp hnd).1
      have hrest : rest.Nodup := (List.nodup_cons.mp hnd).2
      simp only [mergeLoop]
      split
      · rename_i hmem
        rw [ih acc hrest]
        congr 1
        simp only [List.filter_cons]
        rw [if_neg (by simp [hmem])]
      · rename_i hmem
        rw [ih (acc ++ [d]) hrest]
        have hfe : rest.filter (fun x => decide (x ∉ acc ++ [d]))
            = rest.filter (fun x => decide (x ∉ acc)) := by
          apply List.filter_congr
          intro x hx
          have hxd : x ≠ d := fun h => hd (h ▸ hx)
          simp [List.mem_append, hxd]
        simp only [List.filter_cons]
        rw [if_pos (by simp [hmem]), hfe]
        simp

/-! ## Structure of the recognizer output -/

/-- The recognizer output is the dedupe (first occurrence kept) of the
four rule outputs concatenated in rule order. -/
theorem extractDateKeywords_eq_dedupe (today : Int)
    (wdOrder : List (GoStr × Nat)) (text : GoStr) :
    extractDateKeywords today wdOrder text
      = dedupeGo [] (relativeDates today (goToLower text)
          ++ weekdayDates today wdOrder (goToLower text)
          ++ isoMatches text ++ dmyDates text) := by
  simp only [extractDateKeywords, relativeDates, weekdayDates, dmyDates]
  split <;> split <;> split <;> simp

/-- Membership in the recognizer output is membership in one of the
four rule outputs. -/
theorem mem_extractDateKeywords (today : Int) (wdOrder : List (GoStr × Nat))
    (text : GoStr) (a : GoStr) :
    a ∈ extractDateKeywords today wdOrder text
      ↔ a ∈ relativeDates today (goToLower text)
          ++ weekdayDates today wdOrder (goToLower text)
          ++ isoMatches text ++ dmyDates text := by
  rw [extractDateKeywords_eq_dedupe, mem_dedupeGo]
  simp

/-- The recognizer output never contains a duplicate date string. -/
theorem extractDateKeywords_nodup (today : Int) (wdOrder : List (GoStr × Nat))
    (text : GoStr) : (extractDateKeywords today wdOrder text).Nodup := by
  rw [extractDateKeywords_eq_dedupe]; exact nodup_dedupeGo _ _

/-! ## Lemmas about the keyword loops of the handlers -/

theorem addKeywordTo_notes (st : DBState) (nid name : GoStr) :
    (addKeywordTo st nid name).notes = st.notes := by
  simp only [addKeywordTo, linkNoteKeyword, upsertKeyword]
  split <;> split <;> rfl

theorem mem_addKeywordTo_keywords (st : DBState) (nid name k : GoStr) :
    k ∈ (addKeywordTo st nid name).keywords ↔ k ∈ st.keywords ∨ k = name := by
  simp only [addKeywordTo, linkNoteKeyword, upsertKeyword]
  split <;> rename_i hk
  · split <;> rename_i hl
    · constructor
      · exact Or.inl
      · rintro (h | rfl)
        · exact h
        · exact hk
    · simp only []
      constructor
      · exact Or.inl
      · rintro (h | rfl)
        · exact h
        · exact hk
  · split <;> rename_i hl <;>
      · simp [List.mem_append]

theorem mem_addKeywordTo_noteKeywords (st : DBState) (nid name : GoStr)
    (p : GoStr × GoStr) :
    p ∈ (addKeywordTo st nid name).noteKeywords
      ↔ p ∈ st.noteKeywords ∨ p = (nid, name) := by
  simp only [addKeywordTo, linkNoteKeyword, upsertKeyword]
  split <;> rename_i hk
  · split <;> rename_i hl
    · constructor
      · exact Or.inl
      · rintro (h | rfl)
        · exact h
        · exact hl
    · simp [List.mem_append]
  · simp only []
    split <;> rename_i hl
    · constructor
      · exact Or.inl
      · rintro (h | rfl)
        · exact h
        · exact hl
    · simp [List.mem_append]

theorem applyKeywords_notes (nid : GoStr) : ∀ (names : List GoStr) (st : DBState),
    (applyKeywords st nid names).notes = st.notes := by
  intro names
  induction names with
  | nil => intro st; rfl
  | cons n rest ih =>
      intro st
      simp only [applyKeywords, List.foldl_cons] at *
      rw [ih, addKeywordTo_notes]

theorem mem_applyKeywords_keywords (nid k : GoStr) :
    ∀ (names : List GoStr) (st : DBState),
    k ∈ (applyKeywords st nid names).keywords ↔ k ∈ st.keywords ∨ k ∈ names := by
  intro names
  induction names with
  | nil => intro st; simp [applyKeywords]
  | cons n rest ih =>
      intro st
      simp only [applyKeywords, List.foldl_cons] at *
      rw [ih, mem_addKeywordTo_keywords]
      simp only [List.mem_cons]
      tauto

theorem mem_applyKeywords_noteKeywords (nid : GoStr) (p : GoStr × GoStr) :
    ∀ (names : List GoStr) (st : DBState),
    p ∈ (applyKeywords st nid names).noteKeywords
      ↔ p ∈ st.noteKeywords ∨ (p.1 = nid ∧ p.2 ∈ names) := by
  intro names
  induction names with
  | nil => intro st; simp [applyKeywords]
  | cons n rest ih =>
      intro st
      simp only [applyKeywords, List.foldl_cons] at *
      rw [ih, mem_addKeywordTo_noteKeywords]
      simp only [List.mem_cons]
      constructor
      · rintro ((h | rfl) | ⟨h1, h2⟩)
        · exact Or.inl h
        · exact Or.inr ⟨rfl, Or.inl rfl⟩
        · exact Or.inr ⟨h1, Or.inr h2⟩
      · rintro (h | ⟨h1, rfl | h2⟩)
        · exact Or.inl (Or.inl h)
        · exact Or.inl (Or.inr (Prod.ext h1 rfl))
        · exact Or.inr ⟨h1, h2⟩

/-! ## Completeness of the ISO-pattern scan -/

theorem isWordChar_of_isDigitChar {c : Char} (h : isDigitChar c = true) :
    isWordChar c = true := by
  simp [isWordChar, h]

theorem boundAt_cons (pw : Bool) (c : Char) (t : GoStr) (j : Nat) :
    boundAt pw (c :: t) (j + 1) = boundAt (isWordChar c) t j := by
  cases j with
  | zero => simp [boundAt]
  | succ k => simp [boundAt, List.drop_succ_cons]

theorem isoHeadMatch_elim {l : GoStr} (h : isoHeadMatch l = true) :
    ∃ c0 c1 c2 c3 c5 c6 c8 c9 rest,
      l = c0 :: c1 :: c2 :: c3 :: '-' :: c5 :: c6 :: '-' :: c8 :: c9 :: rest
      ∧ isDigitChar c0 = true ∧ isDigitChar c1 = true ∧ isDigitChar c2 = true
      ∧ isDigitChar c3 = true ∧ isDigitChar c5 = true ∧ isDigitChar c6 = true
      ∧ isDigitChar c8 = true ∧ isDigitChar c9 = true
      ∧ (rest = [] ∨ ∃ r rs, rest = r :: rs ∧ isWordChar r = false) := by
  rcases l with _ | ⟨c0, l⟩
  · simp [isoHeadMatch] at h
  rcases l with _ | ⟨c1, l⟩
  · simp [isoHeadMatch] at h
  rcases l with _ | ⟨c2, l⟩
  · simp [isoHeadMatch] at h
  rcases l with _ | ⟨c3, l⟩
  · simp [isoHeadMatch] at h
  rcases l with _ | ⟨c4, l⟩
  · simp [isoHeadMatch] at h
  rcases l with _ | ⟨c5, l⟩
  · simp [isoHeadMatch] at h
  rcases l with _ | ⟨c6, l⟩
  · simp [isoHeadMatch] at h
  rcases l with _ | ⟨c7, l⟩
  · simp [isoHeadMatch] at h
  rcases l with _ | ⟨c8, l⟩
  · simp [isoHeadMatch] at h
  rcases l with _ | ⟨c9, rest⟩
  · simp [isoHeadMatch] at h
  simp only [isoHeadMatch, Bool.and_eq_true, decide_eq_true_eq, and_assoc] at h
  obtain ⟨h0, h1, h2, h3, hd4, h5, h6, hd7, h8, h9, hrest⟩ := h
  subst hd4; subst hd7
  refine ⟨c0, c1, c2, c3, c5, c6, c8, c9, rest, rfl,
    h0, h1, h2, h3, h5, h6, h8, h9, ?_⟩
  rcases rest with _ | ⟨r, rs⟩
  · exact Or.inl rfl
  · exact Or.inr ⟨r, rs, rfl, by simpa using hrest⟩

/-- Completeness of the ISO scan: every position of the text where
the `\b`-delimited ISO shape matches contributes its ten characters to
the scan result, for any sufficient fuel. -/
theorem isoScan_complete : ∀ (fuel : Nat) (pw : Bool) (l : GoStr) (i : Nat),
    l.length ≤ fuel → boundIsoAt pw l i = true →
    (l.drop i).take 10 ∈ isoScanAux fuel pw l := by
  intro fuel
  induction fuel with
  | zero =>
      intro pw l i hlen hb
      have hnil : l = [] := List.length_eq_zero.mp (Nat.le_zero.mp hlen)
      subst hnil
      simp [boundIsoAt, isoHeadMatch] at hb
  | succ fuel ih =>
      intro pw l i hlen hb
      rcases l with _ | ⟨c, t⟩
      · simp [boundIsoAt, isoHeadMatch] at hb
      by_cases hcond : (!pw && isoHeadMatch (c :: t)) = true
      · have hscan : isoScanAux (fuel + 1) pw (c :: t)
            = (c :: t).take 10 :: isoScanAux fuel true ((c :: t).drop 10) := by
          simp [isoScanAux, hcond]
        rw [hscan]
        obtain ⟨d0, d1, d2, d3, d5, d6, d8, d9, rest, hl, g0, g1, g2, g3, g5,
          g6, g8, g9, grest⟩ := isoHeadMatch_elim (Bool.and_eq_true .. ▸ hcond).2
        rcases i with _ | i1
        · exact List.mem_cons_self _ _
        by_cases h10 : i1 + 1 < 10
        · exfalso
          have hbb : boundAt pw (c :: t) (i1 + 1) = true :=
            ((Bool.and_eq_true ..).mp hb).1
          have hbm : isoHeadMatch ((c :: t).drop (i1 + 1)) = true :=
            ((Bool.and_eq_true ..).mp hb).2
          have h9b : i1 < 9 := by omega
          rw [hl] at hbb hbm
          interval_cases i1
          · rw [show boundAt pw (d0 :: d1 :: d2 :: d3 :: '-' :: d5 :: d6 :: '-'
                :: d8 :: d9 :: rest) 1 = !isWordChar d0 from by simp [boundAt]]
              at hbb
            rw [isWordChar_of_isDigitChar g0] at hbb
            simp at hbb
          · rw [show boundAt pw (d0 :: d1 :: d2 :: d3 :: '-' :: d5 :: d6 :: '-'
                :: d8 :: d9 :: rest) 2 = !isWordChar d1 from by simp [boundAt]]
              at hbb
            rw [isWordChar_of_isDigitChar g1] at hbb
            simp at hbb
          · rw [show boundAt pw (d0 :: d1 :: d2 :: d3 :: '-' :: d5 :: d6 :: '-'
                :: d8 :: d9 :: rest) 3 = !isWordChar d2 from by simp [boundAt]]
              at hbb
            rw [isWordChar_of_isDigitChar g2] at hbb
            simp at hbb
          · rw [show boundAt pw (d0 :: d1 :: d2 :: d3 :: '-' :: d5 :: d6 :: '-'
                :: d8 :: d9 :: rest) 4 = !isWordChar d3 from by simp [boundAt]]
              at hbb
            rw [isWordChar_of_isDigitChar g3] at hbb
            simp at hbb
          · obtain ⟨e0, e1, e2, e3, e5, e6, e8, e9, rest2, hl2, f0, f1, f2, f3,
              f5, f6, f8, f9, frest⟩ := isoHeadMatch_elim hbm
            have : d6 = e1 ∧ ('-' : Char) = e2 := by
              have := hl2
              simp only [List.drop_succ_cons, List.drop_zero] at this
              injection this with _ this
              injection this with h1 this
              injection this with h2 _
              exact ⟨h1, h2⟩
            rcases this with ⟨_, hdash⟩
            rw [← hdash] at f2
            simp [isDigitChar] at f2
          · rw [show boundAt pw (d0 :: d1 :: d2 :: d3 :: '-' :: d5 :: d6 :: '-'
                :: d8 :: d9 :: rest) 6 = !isWordChar d5 from by simp [boundAt]]
              at hbb
            rw [isWordChar_of_isDigitChar g5] at hbb
            simp at hbb
          · rw [show boundAt pw (d0 :: d1 :: d2 :: d3 :: '-' :: d5 :: d6 :: '-'
                :: d8 :: d9 :: rest) 7 = !isWordChar d6 from by simp [boundAt]]
              at hbb
            rw [isWordChar_of_isDigitChar g6] at hbb
            simp at hbb
          · obtain ⟨e0, e1, e2, e3, e5, e6, e8, e9, rest2, hl2, f0, f1, f2, f3,
              f5, f6, f8, f9, frest⟩ := isoHeadMatch_elim hbm
            simp only [List.drop_succ_cons, List.drop_zero] at hl2
            rcases grest with hre | ⟨r, rs, hre, hrw⟩
            · subst hre
              injection hl2 with _ hl2
              injection hl2 with _ hl2
              exact List.noConfusion hl2
            · subst hre
              injection hl2 with _ hl2
              injection hl2 with _ hl2
              injection hl2 with hr _
              rw [hr, isWordChar_of_isDigitChar f2] at hrw
              exact Bool.noConfusion hrw
          · rw [show boundAt pw (d0 :: d1 :: d2 :: d3 :: '-' :: d5 :: d6 :: '-'
                :: d8 :: d9 :: rest) 9 = !isWordChar d8 from by simp [boundAt]]
              at hbb
            rw [isWordChar_of_isDigitChar g8] at hbb
            simp at hbb
        · apply List.mem_cons_of_mem
          set j := i1 + 1 - 10 with hj
          have hij : i1 + 1 = 10 + j := by omega
          have hbb : boundAt pw (c :: t) (i1 + 1) = true :=
            ((Bool.and_eq_true ..).mp hb).1
          have hbm : isoHeadMatch ((c :: t).drop (i1 + 1)) = true :=
            ((Bool.and_eq_true ..).mp hb).2
          have hdropten : ((c :: t).drop 10).drop j = (c :: t).drop (i1 + 1) := by
            rw [List.drop_drop, hij, Nat.add_comm]
          have hbound2 : boundAt true ((c :: t).drop 10) j = true := by
            rcases j with _ | k
            · exfalso
              rw [hij] at hbb
              rw [show boundAt pw (c :: t) (10 + 0)
                  = !isWordChar d9 from by rw [hl]; simp [boundAt]] at hbb
              rw [isWordChar_of_isDigitChar g9] at hbb
              exact Bool.noConfusion hbb
            · rw [hij] at hbb
              have harith : 10 + (k + 1) = (10 + k) + 1 := by omega
              rw [harith] at hbb
              have hdk : ((c :: t).drop 10).drop k = (c :: t).drop (10 + k) := by
                rw [List.drop_drop, Nat.add_comm]
              rw [show boundAt true ((c :: t).drop 10) (k + 1)
                  = (match ((c :: t).drop 10).drop k with
                     | [] => false
                     | c :: _ => !isWordChar c) from rfl]
              rw [hdk]
              rw [show boundAt pw (c :: t) ((10 + k) + 1)
                  = (match (c :: t).drop (10 + k) with
                     | [] => false
                     | c :: _ => !isWordChar c) from rfl] at hbb
              exact hbb
          have hlen2 : ((c :: t).drop 10).length ≤ fuel := by
            simp only [List.length_drop, List.length_cons]
            simp only [List.length_cons] at hlen
            omega
          have hbm2 : boundIsoAt true ((c :: t).drop 10) j = true := by
            rw [boundIsoAt, hbound2, hdropten, hbm]
            rfl
          have hmem := ih true ((c :: t).drop 10) j hlen2 hbm2
          rwa [hdropten] at hmem
      · have hscan : isoScanAux (fuel + 1) pw (c :: t)
            = isoScanAux fuel (isWordChar c) t := by
          simp only [isoScanAux]
          rw [if_neg hcond]
        rw [hscan]
        rcases i with _ | j
        · exfalso
          apply hcond
          have : boundAt pw (c :: t) 0 = !pw := rfl
          have hb2 := (Bool.and_eq_true ..).mp hb
          rw [this] at hb2
          exact (Bool.and_eq_true ..).mpr hb2
        · have hb2 : boundIsoAt (isWordChar c) t j = true := by
            have hsplit := (Bool.and_eq_true ..).mp hb
            rw [boundIsoAt]
            apply (Bool.and_eq_true ..).mpr
            constructor
            · rw [← boundAt_cons pw c t j]
              exact hsplit.1
            · rw [show (c :: t).drop (j + 1) = t.drop j from
                List.drop_succ_cons .. ] at hsplit
              exact hsplit.2
          have hlen2 : t.length ≤ fuel := by
            simp only [List.length_cons] at hlen
            omega
          have := ih (isWordChar c) t j hlen2 hb2
          rwa [show (c :: t).drop (j + 1) = t.drop j from List.drop_succ_cons ..]

/-! ## Shape of successful day-month-year matches -/

theorem isDigitChar_eq_false_of_isSepChar {c : Char} (h : isSepChar c = true) :
    isDigitChar c = false := by
  have hc : c = '.' ∨ c = '/' := by simpa [isSepChar] using h
  rcases hc with rfl | rfl <;> decide

theorem isWordChar_eq_false_of_isSepChar {c : Char} (h : isSepChar c = true) :
    isWordChar c = false := by
  have hc : c = '.' ∨ c = '/' := by simpa [isSepChar] using h
  rcases hc with rfl | rfl <;> decide

theorem isSepChar_eq_false_of_isDigitChar {c : Char} (h : isDigitChar c = true) :
    isSepChar c = false := by
  cases hb : isSepChar c with
  | false => rfl
  | true =>
      rw [isDigitChar_eq_false_of_isSepChar hb] at h
      exact Bool.noConfusion h

theorem tryDMYMon_elim {s1 : Char} {mon l : GoStr} {s1b : Char} {monb : GoStr}
    {s2 : Char} {yr r : GoStr}
    (h : tryDMYMon s1 mon l = some ((s1b, monb, s2, yr), r)) :
    s1b = s1 ∧ monb = mon ∧ isSepChar s2 = true
    ∧ (∃ y1 y2 y3 y4, yr = [y1, y2, y3, y4] ∧ isDigitChar y1 = true
        ∧ isDigitChar y2 = true ∧ isDigitChar y3 = true ∧ isDigitChar y4 = true)
    ∧ l = s2 :: (yr ++ r)
    ∧ (r = [] ∨ ∃ c rc, r = c :: rc ∧ isWordChar c = false) := by
  match l with
  | [] => simp [tryDMYMon] at h
  | [a] => simp [tryDMYMon] at h
  | [a, b] => simp [tryDMYMon] at h
  | [a, b, c] => simp [tryDMYMon] at h
  | [a, b, c, d] => simp [tryDMYMon] at h
  | s2c :: y1 :: y2 :: y3 :: y4 :: rest =>
    simp only [tryDMYMon] at h
    split at h
    · rename_i hcond
      simp only [Bool.and_eq_true, and_assoc] at hcond
      obtain ⟨hs, h1, h2, h3, h4, hbd⟩ := hcond
      simp only [Option.some.injEq, Prod.mk.injEq] at h
      obtain ⟨⟨hs1, hmon, hs2, hyr⟩, hr⟩ := h
      subst hs1; subst hmon; subst hs2; subst hr
      refine ⟨rfl, rfl, hs, ⟨y1, y2, y3, y4, hyr.symm, h1, h2, h3, h4⟩, ?_, ?_⟩
      · rw [← hyr]; rfl
      · rcases rest with _ | ⟨q, qs⟩
        · exact Or.inl rfl
        · exact Or.inr ⟨q, qs, rfl, by simpa using hbd⟩
    · exact absurd h (by simp)

theorem tryDMYAfterDay_elim {l : GoStr} {s1 : Char} {mon : GoStr} {s2 : Char}
    {yr r : GoStr}
    (h : tryDMYAfterDay l = some ((s1, mon, s2, yr), r)) :
    isSepChar s1 = true
    ∧ ((∃ a, mon = [a] ∧ isDigitChar a = true)
        ∨ (∃ a b, mon = [a, b] ∧ isDigitChar a = true ∧ isDigitChar b = true))
    ∧ isSepChar s2 = true
    ∧ (∃ y1 y2 y3 y4, yr = [y1, y2, y3, y4] ∧ isDigitChar y1 = true
        ∧ isDigitChar y2 = true ∧ isDigitChar y3 = true ∧ isDigitChar y4 = true)
    ∧ l = s1 :: (mon ++ s2 :: (yr ++ r))
    ∧ (r = [] ∨ ∃ c rc, r = c :: rc ∧ isWordChar c = false) := by
  match l with
  | [] => simp [tryDMYAfterDay] at h
  | [x] => simp [tryDMYAfterDay] at h
  | s1c :: m1 :: rest =>
    simp only [tryDMYAfterDay] at h
    split at h
    · rename_i hcond
      simp only [Bool.and_eq_true] at hcond
      obtain ⟨hsep, hm1⟩ := hcond
      match rest with
      | [] => simp at h
      | m2 :: rest2 =>
        simp only at h
        split at h
        · rename_i hm2
          obtain ⟨hs1b, hmonb, hs2, hyr, hl, hbd⟩ := tryDMYMon_elim h
          subst hs1b; subst hmonb
          refine ⟨hsep, Or.inr ⟨m1, m2, rfl, hm1, hm2⟩, hs2, hyr, ?_, hbd⟩
          rw [hl]
          rfl
        · rename_i hm2
          obtain ⟨hs1b, hmonb, hs2, hyr, hl, hbd⟩ := tryDMYMon_elim h
          subst hs1b; subst hmonb
          refine ⟨hsep, Or.inl ⟨m1, rfl, hm1⟩, hs2, hyr, ?_, hbd⟩
          rw [show (m2 :: rest2) = _ from hl]
          rfl
    · exact absurd h (by simp)

theorem tryDMY_elim {l : GoStr} {p : DMYParts} {r : GoStr}
    (h : tryDMY l = some (p, r)) :
    p.WF ∧ l = p.raw ++ r
    ∧ (r = [] ∨ ∃ c rc, r = c :: rc ∧ isWordChar c = false) := by
  match l with
  | [] => simp [tryDMY] at h
  | d1 :: rest =>
    simp only [tryDMY] at h
    split at h
    · rename_i hd1
      match rest with
      | [] => simp at h
      | d2 :: rest2 =>
        simp only at h
        split at h
        · rename_i hd2
          rcases h2 : tryDMYAfterDay rest2 with _ | pr2
          · rw [h2] at h; simp at h
          · rw [h2] at h
            simp only [Option.map_some', Option.some.injEq] at h
            obtain ⟨⟨s1v, monv, s2v, yrv⟩, rv⟩ := pr2
            simp only [Prod.mk.injEq] at h
            obtain ⟨hp, hr⟩ := h
            subst hp; subst hr
            obtain ⟨hsep1, hmon, hsep2, hyr, hl, hbd⟩ := tryDMYAfterDay_elim h2
            refine ⟨⟨Or.inr ⟨d1, d2, rfl, hd1, hd2⟩, hsep1, hmon, hsep2, hyr⟩,
              ?_, hbd⟩
            rw [hl]
            simp [DMYParts.raw]
        · rename_i hd2
          rcases h2 : tryDMYAfterDay (d2 :: rest2) with _ | pr2
          · rw [h2] at h; simp at h
          · rw [h2] at h
            simp only [Option.map_some', Option.some.injEq] at h
            obtain ⟨⟨s1v, monv, s2v, yrv⟩, rv⟩ := pr2
            simp only [Prod.mk.injEq] at h
            obtain ⟨hp, hr⟩ := h
            subst hp; subst hr
            obtain ⟨hsep1, hmon, hsep2, hyr, hl, hbd⟩ := tryDMYAfterDay_elim h2
            refine ⟨⟨Or.inl ⟨d1, rfl, hd1⟩, hsep1, hmon, hsep2, hyr⟩, ?_, hbd⟩
            rw [show (d2 :: rest2) = _ from hl]
            simp [DMYParts.raw]
    · exact absurd h (by simp)

/-! ## No day-month-year match can start inside another match

A successful match consists of digits and the two separators; a `\b`
boundary inside it can only sit after a separator, i.e. at the start
of the month digits or of the year digits, and the pattern cannot
match there because at most two digits can precede the next separator
while four year digits follow. -/

theorem no_afterDay_year_start {s2v y1 y2 y3 y4 : Char} {r0 : GoStr}
    {q : (Char × GoStr × Char × GoStr) × GoStr}
    (h2 : isDigitChar y2 = true) (h3 : isDigitChar y3 = true)
    (h : tryDMYAfterDay (s2v :: y1 :: y2 :: y3 :: y4 :: r0) = some q) : False := by
  obtain ⟨⟨s1x, monx, s2x, yrx⟩, rx⟩ := q
  obtain ⟨hsep1, hmon, hsep2, hyr, hl, hbd⟩ := tryDMYAfterDay_elim h
  injection hl with h1 hl
  rcases hmon with ⟨a, ha, hda⟩ | ⟨a, b, hab, hda, hdb⟩
  · subst ha
    injection hl with _ hl
    injection hl with h2x _
    rw [h2x] at h2
    rw [isDigitChar_eq_false_of_isSepChar hsep2] at h2
    exact Bool.noConfusion h2
  · subst hab
    injection hl with _ hl
    injection hl with _ hl
    injection hl with h3x _
    rw [h3x] at h3
    rw [isDigitChar_eq_false_of_isSepChar hsep2] at h3
    exact Bool.noConfusion h3

theorem no_afterDay_two_digits {y3 y4 : Char} {r0 : GoStr}
    {q : (Char × GoStr × Char × GoStr) × GoStr}
    (h3 : isDigitChar y3 = true)
    (h : tryDMYAfterDay (y3 :: y4 :: r0) = some q) : False := by
  obtain ⟨⟨s1x, monx, s2x, yrx⟩, rx⟩ := q
  obtain ⟨hsep1, _, _, _, hl, _⟩ := tryDMYAfterDay_elim h
  injection hl with h1 _
  rw [h1] at h3
  rw [isDigitChar_eq_false_of_isSepChar hsep1] at h3
  exact Bool.noConfusion h3

theorem no_tryDMY_month_start_one {m s2v y1 y2 y3 y4 : Char} {r0 : GoStr}
    {pr : DMYParts × GoStr}
    (hm : isDigitChar m = true) (hs2 : isSepChar s2v = true)
    (h2 : isDigitChar y2 = true) (h3 : isDigitChar y3 = true)
    (h : tryDMY (m :: s2v :: y1 :: y2 :: y3 :: y4 :: r0) = some pr) : False := by
  simp only [tryDMY, hm, isDigitChar_eq_false_of_isSepChar hs2, Bool.false_eq_true,
    if_true, if_false] at h
  rcases Option.map_eq_some'.mp h with ⟨pr2, hpr2, _⟩
  exact no_afterDay_year_start h2 h3 hpr2

theorem no_tryDMY_month_start_two {m1 m2 s2v y1 y2 y3 y4 : Char} {r0 : GoStr}
    {pr : DMYParts × GoStr}
    (hm1 : isDigitChar m1 = true) (hm2 : isDigitChar m2 = true)
    (h2 : isDigitChar y2 = true) (h3 : isDigitChar y3 = true)
    (h : tryDMY (m1 :: m2 :: s2v :: y1 :: y2 :: y3 :: y4 :: r0) = some pr) :
    False := by
  simp only [tryDMY, hm1, hm2, if_true] at h
  rcases Option.map_eq_some'.mp h with ⟨pr2, hpr2, _⟩
  exact no_afterDay_year_start h2 h3 hpr2

theorem no_tryDMY_year_start {y1 y2 y3 y4 : Char} {r0 : GoStr}
    {pr : DMYParts × GoStr}
    (h1 : isDigitChar y1 = true) (h2 : isDigitChar y2 = true)
    (h3 : isDigitChar y3 = true)
    (h : tryDMY (y1 :: y2 :: y3 :: y4 :: r0) = some pr) : False := by
  simp only [tryDMY, h1, h2, if_true] at h
  rcases Option.map_eq_some'.mp h with ⟨pr2, hpr2, _⟩
  exact no_afterDay_two_digits h3 hpr2

/-- The raw string of a well-formed match ends in a year digit. -/
theorem WF_raw_decomp {p : DMYParts} (h : p.WF) :
    ∃ q y, p.raw = q ++ [y] ∧ isDigitChar y = true
      ∧ p.raw.length = q.length + 1 := by
  obtain ⟨_, _, _, _, y1, y2, y3, y4, hyr, _, _, _, g4⟩ := h
  refine ⟨p.dayDigits ++ [p.sep1] ++ p.monDigits ++ [p.sep2] ++ [y1, y2, y3],
    y4, ?_, g4, ?_⟩
  · rw [DMYParts.raw, hyr]
    simp
  · rw [DMYParts.raw, hyr]
    simp
    omega

/-- Completeness of the day-month-year scan: every position of the
text where the `\b` assertion holds and the pattern matches
contributes its match to the scan result, for any sufficient fuel. -/
theorem dmyScan_complete : ∀ (fuel : Nat) (pw : Bool) (l : GoStr) (i : Nat)
    (p : DMYParts) (r : GoStr),
    l.length ≤ fuel → boundAt pw l i = true → tryDMY (l.drop i) = some (p, r) →
    p ∈ dmyScanAux fuel pw l := by
  intro fuel
  induction fuel with
  | zero =>
      intro pw l i p r hlen hb hm
      have hnil : l = [] := List.length_eq_zero.mp (Nat.le_zero.mp hlen)
      subst hnil
      rw [List.drop_nil] at hm
      simp [tryDMY] at hm
  | succ fuel ih =>
      intro pw l i p r hlen hb hm
      rcases l with _ | ⟨c, t⟩
      · rw [List.drop_nil] at hm; simp [tryDMY] at hm
      have hlen2 : t.length ≤ fuel := by
        simp only [List.length_cons] at hlen; omega
      cases pw with
      | true =>
          have hscan : dmyScanAux (fuel + 1) true (c :: t)
              = dmyScanAux fuel (isWordChar c) t := by simp [dmyScanAux]
          rw [hscan]
          rcases i with _ | j
          · simp [boundAt] at hb
          · rw [boundAt_cons] at hb
            rw [List.drop_succ_cons] at hm
            exact ih (isWordChar c) t j p r hlen2 hb hm
      | false =>
          rcases h0 : tryDMY (c :: t) with _ | pr0
          · have hscan : dmyScanAux (fuel + 1) false (c :: t)
                = dmyScanAux fuel (isWordChar c) t := by
              simp [dmyScanAux, h0]
            rw [hscan]
            rcases i with _ | j
            · rw [List.drop_zero, h0] at hm
              exact Option.noConfusion hm
            · rw [boundAt_cons] at hb
              rw [List.drop_succ_cons] at hm
              exact ih (isWordChar c) t j p r hlen2 hb hm
          · obtain ⟨p0, r0⟩ := pr0
            have hscan : dmyScanAux (fuel + 1) false (c :: t)
                = p0 :: dmyScanAux fuel true r0 := by
              simp [dmyScanAux, h0]
            rw [hscan]
            obtain ⟨hwf, hlr, hbd⟩ := tryDMY_elim h0
            rcases i with _ | i1
            · rw [List.drop_zero, h0] at hm
              simp only [Option.some.injEq, Prod.mk.injEq] at hm
              rw [← hm.1]
              exact List.mem_cons_self _ _
            · by_cases hlt : i1 + 1 < p0.raw.length
              · exfalso
                obtain ⟨hday, hs1, hmon, hs2, hyr⟩ := hwf
                obtain ⟨y1, y2, y3, y4, hyrv, g1, g2, g3, g4⟩ := hyr
                rw [DMYParts.raw, hyrv] at hlt
                rcases hday with ⟨a, hav, ga⟩ | ⟨a, b, habv, ga, gb⟩ <;>
                  rcases hmon with ⟨m, hmv, gm⟩ | ⟨m1, m2, hmv, gm1, gm2⟩
                · rw [hav, hmv] at hlt
                  rw [DMYParts.raw, hav, hmv, hyrv] at hlr
                  simp only [List.cons_append, List.nil_append,
                    List.append_assoc] at hlr
                  rw [hlr] at hb hm
                  simp only [List.length_append, List.length_cons,
                    List.length_nil] at hlt
                  have hbound : i1 < 7 := by omega
                  interval_cases i1
                  · have hb2 : (!isWordChar a) = true := hb
                    rw [isWordChar_of_isDigitChar ga] at hb2
                    exact Bool.noConfusion hb2
                  · exact no_tryDMY_month_start_one gm hs2 g2 g3 hm
                  · have hb2 : (!isWordChar m) = true := hb
                    rw [isWordChar_of_isDigitChar gm] at hb2
                    exact Bool.noConfusion hb2
                  · exact no_tryDMY_year_start g1 g2 g3 hm
                  · have hb2 : (!isWordChar y1) = true := hb
                    rw [isWordChar_of_isDigitChar g1] at hb2
                    exact Bool.noConfusion hb2
                  · have hb2 : (!isWordChar y2) = true := hb
                    rw [isWordChar_of_isDigitChar g2] at hb2
                    exact Bool.noConfusion hb2
                  · have hb2 : (!isWordChar y3) = true := hb
                    rw [isWordChar_of_isDigitChar g3] at hb2
                    exact Bool.noConfusion hb2
                · rw [hav, hmv] at hlt
                  rw [DMYParts.raw, hav, hmv, hyrv] at hlr
                  simp only [List.cons_append, List.nil_append,
                    List.append_assoc] at hlr
                  rw [hlr] at hb hm
                  simp only [List.length_append, List.length_cons,
                    List.length_nil] at hlt
                  have hbound : i1 < 8 := by omega
                  interval_cases i1
                  · have hb2 : (!isWordChar a) = true := hb
                    rw [isWordChar_of_isDigitChar ga] at hb2
                    exact Bool.noConfusion hb2
                  · exact no_tryDMY_month_start_two gm1 gm2 g2 g3 hm
                  · have hb2 : (!isWordChar m1) = true := hb
                    rw [isWordChar_of_isDigitChar gm1] at hb2
                    exact Bool.noConfusion hb2
                  · have hb2 : (!isWordChar m2) = true := hb
                    rw [isWordChar_of_isDigitChar gm2] at hb2
                    exact Bool.noConfusion hb2
                  · exact no_tryDMY_year_start g1 g2 g3 hm
                  · have hb2 : (!isWordChar y1) = true := hb
                    rw [isWordChar_of_isDigitChar g1] at hb2
                    exact Bool.noConfusion hb2
                  · have hb2 : (!isWordChar y2) = true := hb
                    rw [isWordChar_of_isDigitChar g2] at hb2
                    exact Bool.noConfusion hb2
                  · have hb2 : (!isWordChar y3) = true := hb
                    rw [isWordChar_of_isDigitChar g3] at hb2
                    exact Bool.noConfusion hb2
                · rw [habv, hmv] at hlt
                  rw [DMYParts.raw, habv, hmv, hyrv] at hlr
                  simp only [List.cons_append, List.nil_append,
                    List.append_assoc] at hlr
                  rw [hlr] at hb hm
                  simp only [List.length_append, List.length_cons,
                    List.length_nil] at hlt
                  have hbound : i1 < 8 := by omega
                  interval_cases i1
                  · have hb2 : (!isWordChar a) = true := hb
                    rw [isWordChar_of_isDigitChar ga] at hb2
                    exact Bool.noConfusion hb2
                  · have hb2 : (!isWordChar b) = true := hb
                    rw [isWordChar_of_isDigitChar gb] at hb2
                    exact Bool.noConfusion hb2
                  · exact no_tryDMY_month_start_one gm hs2 g2 g3 hm
                  · have hb2 : (!isWordChar m) = true := hb
                    rw [isWordChar_of_isDigitChar gm] at hb2
                    exact Bool.noConfusion hb2
                  · exact no_tryDMY_year_start g1 g2 g3 hm
                  · have hb2 : (!isWordChar y1) = true := hb
                    rw [isWordChar_of_isDigitChar g1] at hb2
                    exact Bool.noConfusion hb2
                  · have hb2 : (!isWordChar y2) = true := hb
                    rw [isWordChar_of_isDigitChar g2] at hb2
                    exact Bool.noConfusion hb2
                  · have hb2 : (!isWordChar y3) = true := hb
                    rw [isWordChar_of_isDigitChar g3] at hb2
                    exact Bool.noConfusion hb2
                · rw [habv, hmv] at hlt
                  rw [DMYParts.raw, habv, hmv, hyrv] at hlr
                  simp only [List.cons_append, List.nil_append,
                    List.append_assoc] at hlr
                  rw [hlr] at hb hm
                  simp only [List.length_append, List.length_cons,
                    List.length_nil] at hlt
                  have hbound : i1 < 9 := by omega
                  interval_cases i1
                  · have hb2 : (!isWordChar a) = true := hb
                    rw [isWordChar_of_isDigitChar ga] at hb2
                    exact Bool.noConfusion hb2
                  · have hb2 : (!isWordChar b) = true := hb
                    rw [isWordChar_of_isDigitChar gb] at hb2
                    exact Bool.noConfusion hb2
                  · exact no_tryDMY_month_start_two gm1 gm2 g2 g3 hm
                  · have hb2 : (!isWordChar m1) = true := hb
                    rw [isWordChar_of_isDigitChar gm1] at hb2
                    exact Bool.noConfusion hb2
                  · have hb2 : (!isWordChar m2) = true := hb
                    rw [isWordChar_of_isDigitChar gm2] at hb2
                    exact Bool.noConfusion hb2
                  · exact no_tryDMY_year_start g1 g2 g3 hm
                  · have hb2 : (!isWordChar y1) = true := hb
                    rw [isWordChar_of_isDigitChar g1] at hb2
                    exact Bool.noConfusion hb2
                  · have hb2 : (!isWordChar y2) = true := hb
                    rw [isWordChar_of_isDigitChar g2] at hb2
                    exact Bool.noConfusion hb2
                  · have hb2 : (!isWordChar y3) = true := hb
                    rw [isWordChar_of_isDigitChar g3] at hb2
                    exact Bool.noConfusion hb2
              · apply List.mem_cons_of_mem
                obtain ⟨q, ylast, hqv, gy, hlen1⟩ := WF_raw_decomp hwf
                have hjv : i1 + 1 = p0.raw.length + (i1 + 1 - p0.raw.length) := by
                  omega
                set j := i1 + 1 - p0.raw.length with hjdef
                have hdropij : (c :: t).drop (i1 + 1) = r0.drop j := by
                  rw [hjv, hlr]
                  exact List.drop_append j
                have hlenr : r0.length ≤ fuel := by
                  have : (c :: t).length = p0.raw.length + r0.length := by
                    rw [hlr, List.length_append]
                  simp only [List.length_cons] at this hlen
                  omega
                have hbr : boundAt true r0 j = true := by
                  rcases hj0 : j with _ | k
                  · exfalso
                    rw [hjv, hj0, Nat.add_zero, hlen1] at hb
                    have hdq : (c :: t).drop q.length = ylast :: r0 := by
                      rw [hlr, hqv, List.append_assoc]
                      exact List.drop_left q ([ylast] ++ r0)
                    have hb2 : (match (c :: t).drop q.length with
                        | [] => false
                        | cc :: _ => !isWordChar cc) = true := hb
                    rw [hdq] at hb2
                    have hb3 : (!isWordChar ylast) = true := hb2
                    rw [isWordChar_of_isDigitChar gy] at hb3
                    exact Bool.noConfusion hb3
                  · rw [hjv, hj0] at hb
                    have hdk : (c :: t).drop (p0.raw.length + k) = r0.drop k := by
                      rw [hlr]
                      exact List.drop_append k
                    have hb2 : (match (c :: t).drop (p0.raw.length + k) with
                        | [] => false
                        | cc :: _ => !isWordChar cc) = true := hb
                    rw [hdk] at hb2
                    exact hb2
                rw [hdropij] at hm
                exact ih true r0 j p r hlenr hbr hm

/-! ## The two-stage parse of a day-month-year match -/

theorem isDigitChar_dash : isDigitChar '-' = false := by decide

theorem normChar_of_digit {c : Char} (h : isDigitChar c = true) :
    (if c = '.' then '-' else if c = '/' then '-' else c) = c := by
  by_cases h1 : c = '.'
  · subst h1; simp [isDigitChar] at h
  · by_cases h2 : c = '/'
    · subst h2; simp [isDigitChar] at h
    · simp [h1, h2]

theorem normChar_of_sep {c : Char} (h : isSepChar c = true) :
    (if c = '.' then '-' else if c = '/' then '-' else c) = '-' := by
  have hc : c = '.' ∨ c = '/' := by simpa [isSepChar] using h
  rcases hc with rfl | rfl <;> simp

/-- On a well-formed match the parse pipeline of the source — separator
normalization, `time.Parse("2-1-2006", ·)`, then
`time.Parse("02-01-2006", ·)` — amounts to reading the three digit
groups and validating them as a calendar date; the result, when the
date is valid, is its `2006-01-02` rendering. -/
theorem dmyToISODate_eq {p : DMYParts} (h : p.WF) :
    dmyToISODate p.raw
      = Option.map formatISO
          (validateDMY (natOfDigits p.dayDigits) (natOfDigits p.monDigits)
            (natOfDigits p.yearDigits)) := by
  obtain ⟨dd, s1v, mm, s2v, yy⟩ := p
  obtain ⟨hday, hs1, hmon, hs2, hyr⟩ := h
  simp only at hday hmon hs1 hs2 hyr ⊢
  obtain ⟨y1, y2, y3, y4, hyrv, g1, g2, g3, g4⟩ := hyr
  subst hyrv
  have hy : natOfDigits [y1, y2, y3, y4]
      = digitVal y1 * 1000 + digitVal y2 * 100 + digitVal y3 * 10 + digitVal y4 := by
    simp [natOfDigits]; ring
  rcases hday with ⟨a, hav, ga⟩ | ⟨a, b, habv, ga, gb⟩ <;>
    rcases hmon with ⟨m, hmv, gm⟩ | ⟨m1, m2, hmv, gm1, gm2⟩
  · subst hav; subst hmv
    have hd : natOfDigits [a] = digitVal a := by simp [natOfDigits]
    have hm : natOfDigits [m] = digitVal m := by simp [natOfDigits]
    rw [hd, hm, hy]
    simp only [dmyToISODate, DMYParts.raw, normalizeSeps, List.map_append,
      List.map_cons, List.map_nil, normChar_of_digit ga, normChar_of_digit gm,
      normChar_of_digit g1, normChar_of_digit g2, normChar_of_digit g3,
      normChar_of_digit g4, normChar_of_sep hs1, normChar_of_sep hs2,
      List.cons_append, List.nil_append, List.append_assoc]
    simp only [goParseDMYLoose, goParseDMYPadded, getnum2, getnum2Fixed,
      getnum4, expectDash, ga, gm, g1, g2, g3, g4, isDigitChar_dash,
      Bool.false_eq_true, if_false, if_true, Bool.and_self, Bool.and_true,
      Bool.true_and, Bool.false_and, Bool.and_false]
    cases hv : validateDMY (digitVal a) (digitVal m)
        (digitVal y1 * 1000 + digitVal y2 * 100 + digitVal y3 * 10 + digitVal y4)
      with
    | none => simp
    | some t => simp
  · subst hav; subst hmv
    have hd : natOfDigits [a] = digitVal a := by simp [natOfDigits]
    have hm : natOfDigits [m1, m2] = digitVal m1 * 10 + digitVal m2 := by
      simp [natOfDigits]; ring
    rw [hd, hm, hy]
    simp only [dmyToISODate, DMYParts.raw, normalizeSeps, List.map_append,
      List.map_cons, List.map_nil, normChar_of_digit ga, normChar_of_digit gm1,
      normChar_of_digit gm2, normChar_of_digit g1, normChar_of_digit g2,
      normChar_of_digit g3, normChar_of_digit g4, normChar_of_sep hs1,
      normChar_of_sep hs2, List.cons_append, List.nil_append, List.append_assoc]
    simp only [goParseDMYLoose, goParseDMYPadded, getnum2, getnum2Fixed,
      getnum4, expectDash, ga, gm1, gm2, g1, g2, g3, g4, isDigitChar_dash,
      Bool.false_eq_true, if_false, if_true, Bool.and_self, Bool.and_true,
      Bool.true_and, Bool.false_and, Bool.and_false]
    cases hv : validateDMY (digitVal a) (digitVal m1 * 10 + digitVal m2)
        (digitVal y1 * 1000 + digitVal y2 * 100 + digitVal y3 * 10 + digitVal y4)
      with
    | none => simp
    | some t => simp
  · subst habv; subst hmv
    have hd : natOfDigits [a, b] = digitVal a * 10 + digitVal b := by
      simp [natOfDigits]; ring
    have hm : natOfDigits [m] = digitVal m := by simp [natOfDigits]
    rw [hd, hm, hy]
    simp only [dmyToISODate, DMYParts.raw, normalizeSeps, List.map_append,
      List.map_cons, List.map_nil, normChar_of_digit ga, normChar_of_digit gb,
      normChar_of_digit gm, normChar_of_digit g1, normChar_of_digit g2,
      normChar_of_digit g3, normChar_of_digit g4, normChar_of_sep hs1,
      normChar_of_sep hs2, List.cons_append, List.nil_append, List.append_assoc]
    simp only [goParseDMYLoose, goParseDMYPadded, getnum2, getnum2Fixed,
      getnum4, expectDash, ga, gb, gm, g1, g2, g3, g4, isDigitChar_dash,
      Bool.false_eq_true, if_false, if_true, Bool.and_self, Bool.and_true,
      Bool.true_and, Bool.false_and, Bool.and_false]
    cases hv : validateDMY (digitVal a * 10 + digitVal b) (digitVal m)
        (digitVal y1 * 1000 + digitVal y2 * 100 + digitVal y3 * 10 + digitVal y4)
      with
    | none => simp
    | some t => simp
  · subst habv; subst hmv
    have hd : natOfDigits [a, b] = digitVal a * 10 + digitVal b := by
      simp [natOfDigits]; ring
    have hm : natOfDigits [m1, m2] = digitVal m1 * 10 + digitVal m2 := by
      simp [natOfDigits]; ring
    rw [hd, hm, hy]
    simp only [dmyToISODate, DMYParts.raw, normalizeSeps, List.map_append,
      List.map_cons, List.map_nil, normChar_of_digit ga, normChar_of_digit gb,
      normChar_of_digit gm1, normChar_of_digit gm2, normChar_of_digit g1,
      normChar_of_digit g2, normChar_of_digit g3, normChar_of_digit g4,
      normChar_of_sep hs1, normChar_of_sep hs2, List.cons_append,
      List.nil_append, List.append_assoc]
    simp only [goParseDMYLoose, goParseDMYPadded, getnum2, getnum2Fixed,
      getnum4, expectDash, ga, gb, gm1, gm2, g1, g2, g3, g4, isDigitChar_dash,
      Bool.false_eq_true, if_false, if_true, Bool.and_self, Bool.and_true,
      Bool.true_and, Bool.false_and, Bool.and_false]
    cases hv : validateDMY (digitVal a * 10 + digitVal b)
        (digitVal m1 * 10 + digitVal m2)
        (digitVal y1 * 1000 + digitVal y2 * 100 + digitVal y3 * 10 + digitVal y4)
      with
    | none => simp
    | some t => simp

theorem keywordPhase_eq (env : KwEnv) (today : Int)
    (wdOrder : List (GoStr × Nat)) (st : DBState) (nid content kwInput : GoStr) :
    keywordPhase env today wdOrder st nid content kwInput
      = (applyKeywords st nid
          (phaseKeys env today wdOrder st.keywords content kwInput),
         if kwInput = [] then true else false) := by
  by_cases hk : kwInput = []
  · subst hk
    rcases hres : (extractKeywords env today wdOrder content st.keywords).2 with
      _ | e
    · simp [keywordPhase, phaseKeys, hres]
    · simp [keywordPhase, phaseKeys, hres, applyKeywords]
  · simp [keywordPhase, phaseKeys, hk]

theorem mem_clearNoteKeywords (st : DBState) (nid : GoStr) (q : GoStr × GoStr) :
    q ∈ (clearNoteKeywords st nid).noteKeywords
      ↔ q ∈ st.noteKeywords ∧ q.1 ≠ nid := by
  simp [clearNoteKeywords, List.mem_filter]

/-! ## Claim C2: the keyword merge policy -/

/-- C2: for every note text `T` and duplicate-free suggested list `S`,
the merged keyword list produced by `extractKeywords` (its merge tail,
`mergeDateKeywords`) equals `S` followed by exactly those recognizer
dates not already in `S`, preserving both orders; every recognizer
date occurs in the result, and the merge returns `S` unchanged when
`S` already contains every recognizer date. -/
theorem claim_C2_merge_policy (today : Int) (wdOrder : List (GoStr × Nat))
    (T : GoStr) (S : List GoStr) (hS : S.Nodup) :
    mergeDateKeywords S today wdOrder T
      = S ++ (extractDateKeywords today wdOrder T).filter (fun d => d ∉ S)
    ∧ (∀ d ∈ extractDateKeywords today wdOrder T,
        d ∈ mergeDateKeywords S today wdOrder T)
    ∧ ((∀ d ∈ extractDateKeywords today wdOrder T, d ∈ S) →
        mergeDateKeywords S today wdOrder T = S) := by
  have hmain : mergeDateKeywords S today wdOrder T
      = S ++ (extractDateKeywords today wdOrder T).filter (fun d => d ∉ S) :=
    mergeLoop_eq_append_filter _ S (extractDateKeywords_nodup today wdOrder T)
  refine ⟨hmain, ?_, ?_⟩
  · intro d hd
    rw [hmain, List.mem_append]
    by_cases hdS : d ∈ S
    · exact Or.inl hdS
    · exact Or.inr (List.mem_filter.mpr ⟨hd, by simp [hdS]⟩)
  · intro hall
    rw [hmain]
    have hnil : (extractDateKeywords today wdOrder T).filter (fun d => d ∉ S) = [] := by
      apply List.filter_eq_nil_iff.mpr
      intro d hd
      simp [hall d hd]
    rw [hnil, List.append_nil]

/-- Witness for C2 at the spec example: text `Handle gaver i går` on a
run where today is 2025-06-15, with the suggested list
`[handle, gaver]`. -/
theorem claim_C2_merge_policy_witness :
    ([str "handle", str "gaver"] : List GoStr).Nodup
    ∧ (mergeDateKeywords [str "handle", str "gaver"] 20254 stdWeekdays
          (str "Handle gaver i går")
        = [str "handle", str "gaver"]
          ++ (extractDateKeywords 20254 stdWeekdays
                (str "Handle gaver i går")).filter
              (fun d => d ∉ [str "handle", str "gaver"])
      ∧ (∀ d ∈ extractDateKeywords 20254 stdWeekdays (str "Handle gaver i går"),
          d ∈ mergeDateKeywords [str "handle", str "gaver"] 20254 stdWeekdays
            (str "Handle gaver i går"))
      ∧ ((∀ d ∈ extractDateKeywords 20254 stdWeekdays (str "Handle gaver i går"),
            d ∈ [str "handle", str "gaver"]) →
          mergeDateKeywords [str "handle", str "gaver"] 20254 stdWeekdays
            (str "Handle gaver i går")
          = [str "handle", str "gaver"])) :=
  ⟨by decide,
   claim_C2_merge_policy 20254 stdWeekdays (str "Handle gaver i går")
     [str "handle", str "gaver"] (by decide)⟩

/-! ## Claim C3: the weekday rule -/

/-- C3: for every weekday entry of the vocabulary whose name occurs
(case-insensitively) in the note text, the recognizer emits the date
`(target - current + 7) mod 7` days after the current date; when the
current day is itself that weekday the offset is zero, so the emitted
date string is the current date, not seven days ahead. -/
theorem claim_C3_weekday_rule (today : Int) (wdOrder : List (GoStr × Nat))
    (text name : GoStr) (wd : Nat)
    (hmem : (name, wd) ∈ wdOrder)
    (hfound : containsSub (goToLower text) name = true) :
    formatDay (today + ((wd : Int) - (weekdayOfDay today : Int) + 7) % 7)
        ∈ extractDateKeywords today wdOrder text
    ∧ (weekdayOfDay today = wd →
        formatDay (today + ((wd : Int) - (weekdayOfDay today : Int) + 7) % 7)
          = formatDay today) := by
  constructor
  · rw [mem_extractDateKeywords]
    simp only [List.append_assoc, List.mem_append]
    refine Or.inr (Or.inl ?_)
    apply List.mem_filterMap.mpr
    exact ⟨(name, wd), hmem, by simp [hfound]⟩
  · intro hEq
    rw [hEq]
    norm_num

/-- Witness for C3: 2025-06-16 (day 20255) is a Monday and the text
mentions `mandag`, so the emitted date is that same day. -/
theorem claim_C3_weekday_rule_witness :
    ((str "mandag", 1) ∈ stdWeekdays
      ∧ containsSub (goToLower (str "Planlegg workshop på mandag"))
          (str "mandag") = true)
    ∧ (formatDay (20255 + ((1 : Int) - (weekdayOfDay 20255 : Int) + 7) % 7)
          ∈ extractDateKeywords 20255 stdWeekdays
              (str "Planlegg workshop på mandag")
      ∧ (weekdayOfDay 20255 = 1 →
          formatDay (20255 + ((1 : Int) - (weekdayOfDay 20255 : Int) + 7) % 7)
            = formatDay 20255)) :=
  ⟨⟨by decide, by decide⟩,
   claim_C3_weekday_rule 20255 stdWeekdays
     (str "Planlegg workshop på mandag") (str "mandag") 1 (by decide) (by decide)⟩

/-! ## Claim C5: the ISO-pattern rule -/

/-- C5 counterexample: the substring `2025-06-15` matches the shape
`\d{4}-\d{2}-\d{2}` and occurs in the text `x2025-06-15`, yet the
recognizer emits nothing, because the pattern in the code carries `\b`
word-boundary anchors and the adjacent character `x` is a word
character — so matches are NOT emitted regardless of the characters
adjacent to them. -/
theorem claim_C5_counterexample :
    isoPureShape (str "2025-06-15") = true
    ∧ containsSub (str "x2025-06-15") (str "2025-06-15") = true
    ∧ isoMatches (str "x2025-06-15") = []
    ∧ extractDateKeywords 0 stdWeekdays (str "x2025-06-15") = [] :=
  ⟨by decide, by decide, by decide, by decide⟩

/-- C5 as amended: every substring of the input matching the shape
`\d{4}-\d{2}-\d{2}` that is delimited by word boundaries (not
immediately preceded or followed by an ASCII word character) is
emitted verbatim by the ISO scan — with no semantic date validation —
and is present in the recognizer output. -/
theorem claim_C5_iso_rule (today : Int) (wdOrder : List (GoStr × Nat))
    (text : GoStr) (i : Nat) (h : boundIsoAt false text i = true) :
    (text.drop i).take 10 ∈ isoMatches text
    ∧ (text.drop i).take 10 ∈ extractDateKeywords today wdOrder text := by
  have h1 : (text.drop i).take 10 ∈ isoMatches text :=
    isoScan_complete text.length false text i (le_refl _) h
  refine ⟨h1, ?_⟩
  rw [mem_extractDateKeywords]
  simp only [List.mem_append]
  exact Or.inl (Or.inr h1)

/-- Witness for C5 at a shape that denotes no valid calendar date:
`9999-99-99` is emitted verbatim. -/
theorem claim_C5_iso_rule_witness :
    boundIsoAt false (str "se 9999-99-99") 3 = true
    ∧ ((str "se 9999-99-99").drop 3).take 10 ∈ isoMatches (str "se 9999-99-99")
    ∧ ((str "se 9999-99-99").drop 3).take 10
        ∈ extractDateKeywords 0 stdWeekdays (str "se 9999-99-99") :=
  ⟨by decide, (claim_C5_iso_rule 0 stdWeekdays (str "se 9999-99-99") 3
      (by decide)).1,
    (claim_C5_iso_rule 0 stdWeekdays (str "se 9999-99-99") 3 (by decide)).2⟩

/-! ## Claim C6: the day-month-year rule -/

/-- C6 counterexample: the substring `15.06.2025` matches the pattern
`\d{1,2}[./]\d{1,2}[./]\d{4}` and parses to `2025-06-15`, and it
occurs in the text `x15.06.2025` — yet the recognizer emits nothing
for that text, because the pattern in the code carries `\b` anchors
and the adjacent `x` is a word character.  So the claim does not hold
for every substring matching the quoted pattern. -/
theorem claim_C6_counterexample :
    dmyPureShape (str "15.06.2025") = true
    ∧ containsSub (str "x15.06.2025") (str "15.06.2025") = true
    ∧ dmyToISODate (str "15.06.2025") = some (str "2025-06-15")
    ∧ extractDateKeywords 0 stdWeekdays (str "x15.06.2025") = [] :=
  ⟨by decide, by decide, by decide, by decide⟩

/-- C6 as amended: every word-boundary-delimited substring of the
input matching `\d{1,2}[./]\d{1,2}[./]\d{4}` (separators `.` or `/`,
mixable) is found by the scan; its separators are normalized to `-`
and it is parsed first as single-digit-tolerant and then as zero-padded
day-month-year — the two-stage parse succeeds exactly when the digit
groups denote a valid calendar date — and on success the `YYYY-MM-DD`
reformatting is emitted into the recognizer output, while a failed
parse (e.g. month 13) makes the match silently dropped, not an error.
In particular `Meeting 15.06.2025` yields `[2025-06-15]` with either
separator, and `Frist 15.13.2025` yields nothing. -/
theorem claim_C6_dmy_rule (today : Int) (wdOrder : List (GoStr × Nat))
    (text : GoStr) (i : Nat) (p : DMYParts) (r : GoStr)
    (hb : boundAt false text i = true)
    (hm : tryDMY (text.drop i) = some (p, r)) :
    p ∈ dmyMatches text
    ∧ dmyToISODate p.raw
        = Option.map formatISO
            (validateDMY (natOfDigits p.dayDigits) (natOfDigits p.monDigits)
              (natOfDigits p.yearDigits))
    ∧ (∀ d, dmyToISODate p.raw = some d →
        d ∈ extractDateKeywords today wdOrder text)
    ∧ extractDateKeywords today stdWeekdays (str "Meeting 15.06.2025")
        = [str "2025-06-15"]
    ∧ extractDateKeywords today stdWeekdays (str "Meeting 15/06/2025")
        = [str "2025-06-15"]
    ∧ extractDateKeywords today stdWeekdays (str "Frist 15.13.2025") = [] := by
  have hmem : p ∈ dmyMatches text :=
    dmyScan_complete text.length false text i p r (le_refl _) hb hm
  refine ⟨hmem, dmyToISODate_eq (tryDMY_elim hm).1, ?_, rfl, rfl, rfl⟩
  intro d hd
  rw [mem_extractDateKeywords]
  simp only [List.mem_append]
  have hdm : d ∈ dmyDates text := List.mem_filterMap.mpr ⟨p, hmem, hd⟩
  tauto

/-- Witness for C6 at the text `15.06.2025` (match at position 0). -/
theorem claim_C6_dmy_rule_witness :
    (boundAt false (str "15.06.2025") 0 = true
      ∧ tryDMY ((str "15.06.2025").drop 0)
          = some (⟨str "15", '.', str "06", '.', str "2025"⟩, []))
    ∧ ((⟨str "15", '.', str "06", '.', str "2025"⟩ : DMYParts)
          ∈ dmyMatches (str "15.06.2025")
      ∧ dmyToISODate (DMYParts.raw ⟨str "15", '.', str "06", '.', str "2025"⟩)
          = Option.map formatISO
              (validateDMY
                (natOfDigits (str "15")) (natOfDigits (str "06"))
                (natOfDigits (str "2025")))
      ∧ (∀ d, dmyToISODate (DMYParts.raw ⟨str "15", '.', str "06", '.',
            str "2025"⟩) = some d →
          d ∈ extractDateKeywords 0 stdWeekdays (str "15.06.2025"))
      ∧ extractDateKeywords 0 stdWeekdays (str "Meeting 15.06.2025")
          = [str "2025-06-15"]
      ∧ extractDateKeywords 0 stdWeekdays (str "Meeting 15/06/2025")
          = [str "2025-06-15"]
      ∧ extractDateKeywords 0 stdWeekdays (str "Frist 15.13.2025") = []) :=
  ⟨⟨by decide, by decide⟩,
   claim_C6_dmy_rule 0 stdWeekdays (str "15.06.2025") 0
     ⟨str "15", '.', str "06", '.', str "2025"⟩ [] (by decide) (by decide)⟩

/-! ## Claim C7: the relative-day rules -/

/-- Lists without duplicates count each member exactly once. -/
theorem count_one_of_nodup_mem : ∀ {l : List GoStr} {a : GoStr},
    l.Nodup → a ∈ l → l.count a = 1 := by
  intro l
  induction l with
  | nil => intro a _ hm; cases hm
  | cons b t ih =>
      intro a hn hm
      rw [List.count_cons]
      rcases List.mem_cons.mp hm with rfl | hm2
      · have hbt : a ∉ t := (List.nodup_cons.mp hn).1
        simp [List.count_eq_zero.mpr hbt]
      · have hb : b ∉ t := (List.nodup_cons.mp hn).1
        have hne : a ≠ b := fun h => hb (h ▸ hm2)
        have hne2 : ¬b = a := fun h => hne h.symm
        simp [ih (List.nodup_cons.mp hn).2 hm2, hne, hne2]

/-- C7: a text whose lower-casing contains the today phrase makes the
recognizer output contain the current date exactly once, even when the
phrase occurs several times; the yesterday phrase contributes the
current date minus one day and the tomorrow phrase the current date
plus one day, each phrase being checked independently. -/
theorem claim_C7_relative_phrases (today : Int) (wdOrder : List (GoStr × Nat))
    (text : GoStr) :
    (containsSub (goToLower text) (str "i dag") = true →
        (extractDateKeywords today wdOrder text).count (formatDay today) = 1)
    ∧ (containsSub (goToLower text) (str "i går") = true →
        formatDay (today - 1) ∈ extractDateKeywords today wdOrder text)
    ∧ (containsSub (goToLower text) (str "i morgen") = true →
        formatDay (today + 1) ∈ extractDateKeywords today wdOrder text) := by
  refine ⟨?_, ?_, ?_⟩
  · intro h
    apply count_one_of_nodup_mem (extractDateKeywords_nodup today wdOrder text)
    rw [mem_extractDateKeywords]
    simp [relativeDates, h]
  · intro h
    rw [mem_extractDateKeywords]
    simp [relativeDates, h]
  · intro h
    rw [mem_extractDateKeywords]
    simp [relativeDates, h]

/-- Witness for C7 on a text containing all three phrases, with the
today phrase occurring twice. -/
theorem claim_C7_relative_phrases_witness :
    ((extractDateKeywords 0 stdWeekdays
        (str "i dag og i går og i morgen og I DAG")).count (formatDay 0) = 1)
    ∧ formatDay (0 - 1) ∈ extractDateKeywords 0 stdWeekdays
        (str "i dag og i går og i morgen og I DAG")
    ∧ formatDay (0 + 1) ∈ extractDateKeywords 0 stdWeekdays
        (str "i dag og i går og i morgen og I DAG") :=
  ⟨(claim_C7_relative_phrases 0 stdWeekdays _).1 (by decide),
   (claim_C7_relative_phrases 0 stdWeekdays _).2.1 (by decide),
   (claim_C7_relative_phrases 0 stdWeekdays _).2.2 (by decide)⟩

/-! ## Claim C4: rule order, weekday order and deduplication -/

/-- C4 counterexample: the weekday results are NOT emitted in a
run-to-run deterministic order.  The weekday vocabulary is a Go map
and `range` visits a map in a randomized order, so any permutation of
the entry list is a possible scan order; two such orders produce
different output sequences on a text mentioning two weekdays, refuting
the claimed stability. -/
theorem claim_C4_counterexample :
    stdWeekdays.reverse.Perm stdWeekdays
    ∧ extractDateKeywords 0 stdWeekdays (str "mandag tirsdag")
        ≠ extractDateKeywords 0 stdWeekdays.reverse (str "mandag tirsdag") :=
  ⟨List.reverse_perm stdWeekdays, by decide⟩

/-- C4 as amended: the output is the concatenation of the rule outputs
in rule order — relative-day results in today/yesterday/tomorrow
order, then the weekday results in the (possibly run-varying) order
the weekday map is iterated, then ISO-pattern matches in text order,
then day-month-year matches in text order — deduplicated keeping the
first occurrence, so the output never contains a duplicate date
string. -/
theorem claim_C4_rule_order_and_dedup (today : Int)
    (wdOrder : List (GoStr × Nat)) (text : GoStr) :
    extractDateKeywords today wdOrder text
      = dedupeGo [] (relativeDates today (goToLower text)
          ++ weekdayDates today wdOrder (goToLower text)
          ++ isoMatches text ++ dmyDates text)
    ∧ (extractDateKeywords today wdOrder text).Nodup
    ∧ (∀ a, a ∈ extractDateKeywords today wdOrder text
        ↔ a ∈ relativeDates today (goToLower text)
            ++ weekdayDates today wdOrder (goToLower text)
            ++ isoMatches text ++ dmyDates text) :=
  ⟨extractDateKeywords_eq_dedupe today wdOrder text,
   extractDateKeywords_nodup today wdOrder text,
   fun a => mem_extractDateKeywords today wdOrder text a⟩

/-! ## Claim C9: the error discipline of `extractKeywords` -/

/-- C9: `extractKeywords` returns a keyword list only together with a
nil error.  Whenever the error component is set the list component is
nil, and the error is nil only when every stage succeeded — the API
key is set, both marshals and the request construction succeeded, the
round trip returned status 200 with a readable body, the response
decoded with a non-empty choices array, and the keywords JSON parsed —
in which case the list is the merge of the parsed keywords with the
locally computed date keywords. -/
theorem claim_C9_error_discipline (env : KwEnv) (today : Int)
    (wdOrder : List (GoStr × Nat)) (content : GoStr) (existing : List GoStr) :
    ((extractKeywords env today wdOrder content existing).2 ≠ none →
      (extractKeywords env today wdOrder content existing).1 = [])
    ∧ ((extractKeywords env today wdOrder content existing).2 = none →
        env.apiKey ≠ []
        ∧ env.marshalExistingErr = none
        ∧ env.marshalBodyErr = none
        ∧ env.newRequestErr = none
        ∧ ∃ resp, env.doResult = .ok resp
          ∧ resp.status = 200
          ∧ ∃ bytes, resp.body = .ok bytes
          ∧ ∃ rd, env.unmarshalResp bytes = .ok rd
          ∧ ∃ raw tl, rd.choices = raw :: tl
          ∧ ∃ parsed, env.unmarshalKeywords (cleanReply raw) = .ok parsed
          ∧ (extractKeywords env today wdOrder content existing).1
              = mergeDateKeywords parsed today wdOrder content) := by
  obtain ⟨ak, me, mb, nr, dr, ur, uk⟩ := env
  by_cases hak : ak = []
  · simp [extractKeywords, hak]
  · cases me with
    | some e => simp [extractKeywords, hak]
    | none =>
        cases mb with
        | some e => simp [extractKeywords, hak]
        | none =>
            cases nr with
            | some e => simp [extractKeywords, hak]
            | none =>
                cases dr with
                | error e => simp [extractKeywords, hak]
                | ok resp =>
                    by_cases hst : resp.status = 200
                    · rcases hbody : resp.body with e | bytes
                      · simp [extractKeywords, hak, hst, hbody]
                      · rcases hur : ur bytes with e | rd
                        · simp [extractKeywords, hak, hst, hbody, hur]
                        · rcases hch : rd.choices with _ | ⟨raw, tl⟩
                          · simp [extractKeywords, hak, hst, hbody, hur, hch]
                          · rcases huk : uk (cleanReply raw) with e | parsed
                            · simp [extractKeywords, hak, hst, hbody, hur, hch,
                                huk]
                            · refine ⟨by simp [extractKeywords, hak, hst, hbody,
                                hur, hch, huk], fun _ => ?_⟩
                              refine ⟨hak, rfl, rfl, rfl, resp, rfl, hst, bytes,
                                hbody, rd, hur, raw, tl, hch, parsed, huk, ?_⟩
                              simp [extractKeywords, hak, hst, hbody, hur, hch,
                                huk]
                    · simp [extractKeywords, hak, hst]

/-- Witness for C9: with an unset API key the function returns a nil
list, and the nil-error case is inhabited through the success branch
of a fully stubbed environment. -/
theorem claim_C9_error_discipline_witness :
    (extractKeywords ⟨[], none, none, none, Except.error (str "e"),
        fun _ => Except.error (str "e"), fun _ => Except.error (str "e")⟩
      0 stdWeekdays (str "i dag") []).1 = [] :=
  (claim_C9_error_discipline ⟨[], none, none, none, Except.error (str "e"),
      fun _ => Except.error (str "e"), fun _ => Except.error (str "e")⟩
    0 stdWeekdays (str "i dag") []).1 (by simp [extractKeywords])

/-! ## Claim C10: explicit keywords win on note creation -/

/-- C10: when the create request carries a non-empty explicit
`keywords` form value the suggestion service is never consulted; the
note row is inserted, the explicit value is split on commas, each part
trimmed, empty parts skipped, and each remaining name is upserted into
the vocabulary and associated with the new note. -/
theorem claim_C10_explicit_keywords (env : KwEnv) (today : Int)
    (wdOrder : List (GoStr × Nat)) (st : DBState) (nid content kwInput : GoStr)
    (hc : content ≠ []) (hk : kwInput ≠ []) :
    ∃ stb, createNoteFlow env today wdOrder st nid content kwInput = some stb
    ∧ stb.2 = false
    ∧ stb.1.notes = st.notes ++ [(nid, content)]
    ∧ (∀ k, (nid, k) ∈ stb.1.noteKeywords
        ↔ (nid, k) ∈ st.noteKeywords ∨ k ∈ explicitKeywordNames kwInput)
    ∧ (∀ k, k ∈ explicitKeywordNames kwInput → k ∈ stb.1.keywords)
    ∧ explicitKeywordNames kwInput
        = ((splitOnComma kwInput).map goTrimSpace).filter (fun n => n ≠ []) := by
  have heq : createNoteFlow env today wdOrder st nid content kwInput
      = some (applyKeywords { st with notes := st.notes ++ [(nid, content)] }
          nid (explicitKeywordNames kwInput), false) := by
    simp only [createNoteFlow, keywordPhase]
    rw [if_neg hc, if_pos hk]
  refine ⟨_, heq, rfl, ?_, ?_, ?_, rfl⟩
  · rw [applyKeywords_notes]
  · intro k
    rw [mem_applyKeywords_noteKeywords]
    simp
  · intro k hkmem
    rw [mem_applyKeywords_keywords]
    exact Or.inr hkmem

/-- Witness for C10 with the explicit value ` jobb, , viktig `:
splitting, trimming and skipping of the empty part are all
exercised. -/
theorem claim_C10_explicit_keywords_witness :
    ((str "Notat om jobb" : GoStr) ≠ [] ∧ (str " jobb, , viktig" : GoStr) ≠ [])
    ∧ ∃ stb, createNoteFlow
        ⟨[], none, none, none, Except.error (str "e"),
          fun _ => Except.error (str "e"), fun _ => Except.error (str "e")⟩
        0 stdWeekdays ⟨[], [], []⟩ (str "n1") (str "Notat om jobb")
        (str " jobb, , viktig") = some stb
    ∧ stb.2 = false
    ∧ stb.1.notes = ([] : List (GoStr × GoStr)) ++ [(str "n1", str "Notat om jobb")]
    ∧ (∀ k, (str "n1", k) ∈ stb.1.noteKeywords
        ↔ (str "n1", k) ∈ ([] : List (GoStr × GoStr))
          ∨ k ∈ explicitKeywordNames (str " jobb, , viktig"))
    ∧ (∀ k, k ∈ explicitKeywordNames (str " jobb, , viktig") → k ∈ stb.1.keywords)
    ∧ explicitKeywordNames (str " jobb, , viktig")
        = ((splitOnComma (str " jobb, , viktig")).map goTrimSpace).filter
            (fun n => n ≠ []) :=
  ⟨⟨by decide, by decide⟩,
   claim_C10_explicit_keywords
     ⟨[], none, none, none, Except.error (str "e"),
       fun _ => Except.error (str "e"), fun _ => Except.error (str "e")⟩
     0 stdWeekdays ⟨[], [], []⟩ (str "n1") (str "Notat om jobb")
     (str " jobb, , viktig") (by decide) (by decide)⟩

/-! ## Claim C8: editing replaces the keyword set -/

/-- C8: a successful POST edit deletes every stored association of the
note before associating the new keyword set — the trimmed explicit
list when one is supplied, otherwise the auto-extracted keywords when
extraction succeeded and nothing when it failed — so the keyword set
is replaced, not merged; associations of other notes are untouched and
previously stored keyword names all remain in the vocabulary table. -/
theorem claim_C8_edit_replaces_keywords (env : KwEnv) (today : Int)
    (wdOrder : List (GoStr × Nat)) (st : DBState) (noteID content kwInput : GoStr)
    (hc : content ≠ []) :
    ∃ stb, editNoteFlow env today wdOrder st noteID content kwInput = some stb
    ∧ (∀ k, (noteID, k) ∈ stb.1.noteKeywords
        ↔ k ∈ phaseKeys env today wdOrder st.keywords content kwInput)
    ∧ phaseKeys env today wdOrder st.keywords content kwInput
        = (if kwInput ≠ [] then explicitKeywordNames kwInput
            else if (extractKeywords env today wdOrder content st.keywords).2 = none
            then (extractKeywords env today wdOrder content st.keywords).1
            else [])
    ∧ (∀ p : GoStr × GoStr, p.1 ≠ noteID →
        (p ∈ stb.1.noteKeywords ↔ p ∈ st.noteKeywords))
    ∧ (∀ k, k ∈ st.keywords → k ∈ stb.1.keywords) := by
  have heq : editNoteFlow env today wdOrder st noteID content kwInput
      = some (applyKeywords
          (clearNoteKeywords (updateNoteRow st noteID content) noteID)
          noteID (phaseKeys env today wdOrder st.keywords content kwInput),
         if kwInput = [] then true else false) := by
    simp only [editNoteFlow]
    rw [if_neg hc, keywordPhase_eq]
    rfl
  refine ⟨_, heq, ?_, rfl, ?_, ?_⟩
  · intro k
    rw [mem_applyKeywords_noteKeywords, mem_clearNoteKeywords]
    constructor
    · rintro (⟨_, hne⟩ | ⟨_, hm⟩)
      · exact absurd rfl hne
      · exact hm
    · intro hm; exact Or.inr ⟨rfl, hm⟩
  · intro p hp
    rw [mem_applyKeywords_noteKeywords, mem_clearNoteKeywords]
    constructor
    · rintro (⟨hm, _⟩ | ⟨hpe, _⟩)
      · exact hm
      · exact absurd hpe hp
    · intro hm; exact Or.inl ⟨hm, hp⟩
  · intro k hm
    rw [mem_applyKeywords_keywords]
    exact Or.inl hm

/-- Witness for C8: editing a note that had keyword `old` with an
explicit list `ny` replaces the association while `old` stays in the
vocabulary. -/
theorem claim_C8_edit_replaces_keywords_witness :
    ((str "Oppdatert innhold" : GoStr) ≠ [])
    ∧ ∃ stb, editNoteFlow
        ⟨[], none, none, none, Except.error (str "e"),
          fun _ => Except.error (str "e"), fun _ => Except.error (str "e")⟩
        0 stdWeekdays
        ⟨[(str "n1", str "Gammelt innhold")], [str "old"],
          [(str "n1", str "old")]⟩
        (str "n1") (str "Oppdatert innhold") (str "ny") = some stb
    ∧ (∀ k, (str "n1", k) ∈ stb.1.noteKeywords
        ↔ k ∈ phaseKeys
            ⟨[], none, none, none, Except.error (str "e"),
              fun _ => Except.error (str "e"), fun _ => Except.error (str "e")⟩
            0 stdWeekdays [str "old"] (str "Oppdatert innhold") (str "ny"))
    ∧ phaseKeys
        ⟨[], none, none, none, Except.error (str "e"),
          fun _ => Except.error (str "e"), fun _ => Except.error (str "e")⟩
        0 stdWeekdays [str "old"] (str "Oppdatert innhold") (str "ny")
        = (if (str "ny" : GoStr) ≠ [] then explicitKeywordNames (str "ny")
            else if (extractKeywords
                ⟨[], none, none, none, Except.error (str "e"),
                  fun _ => Except.error (str "e"),
                  fun _ => Except.error (str "e")⟩
                0 stdWeekdays (str "Oppdatert innhold") [str "old"]).2 = none
            then (extractKeywords
                ⟨[], none, none, none, Except.error (str "e"),
                  fun _ => Except.error (str "e"),
                  fun _ => Except.error (str "e")⟩
                0 stdWeekdays (str "Oppdatert innhold") [str "old"]).1
            else [])
    ∧ (∀ p : GoStr × GoStr, p.1 ≠ str "n1" →
        (p ∈ stb.1.noteKeywords ↔ p ∈ [(str "n1", str "old")]))
    ∧ (∀ k, k ∈ [str "old"] → k ∈ stb.1.keywords) :=
  ⟨by decide,
   claim_C8_edit_replaces_keywords
     ⟨[], none, none, none, Except.error (str "e"),
       fun _ => Except.error (str "e"), fun _ => Except.error (str "e")⟩
     0 stdWeekdays
     ⟨[(str "n1", str "Gammelt innhold")], [str "old"], [(str "n1", str "old")]⟩
     (str "n1") (str "Oppdatert innhold") (str "ny") (by decide)⟩

/-! ## Claim C1: remote failure during note creation -/

/-- C1 counterexample: with a simulated non-200 remote response the
note is stored, but no keyword at all is associated with it — the
recognizer found the date keyword `1970-01-01` in the content, yet the
stored state has an empty `note_keywords` table, contradicting the
claim that date keywords are still associated on remote failure. -/
theorem claim_C1_counterexample :
    extractDateKeywords 0 stdWeekdays (str "Frist i dag") = [str "1970-01-01"]
    ∧ createNoteFlow
        ⟨str "key", none, none, none, Except.ok ⟨500, Except.ok (str "oops")⟩,
          fun _ => Except.error (str "unused"), fun _ => Except.error (str "unused")⟩
        0 stdWeekdays ⟨[], [], []⟩ (str "n1") (str "Frist i dag") []
      = some (⟨[(str "n1", str "Frist i dag")], [], []⟩, true) :=
  ⟨by decide, by decide⟩

/-- C1 as amended: when the remote keyword-suggestion call fails the
note is still stored, but the handler only logs the failure and skips
keyword association entirely — the keyword merge policy is not applied
and the date keywords of the content are not associated; the keyword
tables are left unchanged. -/
theorem claim_C1_remote_failure (env : KwEnv) (today : Int)
    (wdOrder : List (GoStr × Nat)) (st : DBState) (nid content : GoStr)
    (hc : content ≠ [])
    (hfail : (extractKeywords env today wdOrder content st.keywords).2 ≠ none) :
    ∃ stb, createNoteFlow env today wdOrder st nid content [] = some stb
    ∧ stb.2 = true
    ∧ stb.1.notes = st.notes ++ [(nid, content)]
    ∧ stb.1.noteKeywords = st.noteKeywords
    ∧ stb.1.keywords = st.keywords := by
  rcases hres : (extractKeywords env today wdOrder content st.keywords).2 with
    _ | e
  · exact absurd hres hfail
  · have heq : createNoteFlow env today wdOrder st nid content []
        = some ({ st with notes := st.notes ++ [(nid, content)] }, true) := by
      simp only [createNoteFlow, keywordPhase]
      rw [if_neg hc, if_neg (by simp : ¬ ([] : GoStr) ≠ []), hres]
    exact ⟨_, heq, rfl, rfl, rfl, rfl⟩

/-- Witness for C1 as amended, at the counterexample input. -/
theorem claim_C1_remote_failure_witness :
    ((str "Frist i dag" : GoStr) ≠ []
      ∧ (extractKeywords
          ⟨str "key", none, none, none, Except.ok ⟨500, Except.ok (str "oops")⟩,
            fun _ => Except.error (str "unused"),
            fun _ => Except.error (str "unused")⟩
          0 stdWeekdays (str "Frist i dag")
          (DBState.keywords ⟨[], [], []⟩)).2 ≠ none)
    ∧ ∃ stb, createNoteFlow
        ⟨str "key", none, none, none, Except.ok ⟨500, Except.ok (str "oops")⟩,
          fun _ => Except.error (str "unused"),
          fun _ => Except.error (str "unused")⟩
        0 stdWeekdays ⟨[], [], []⟩ (str "n1") (str "Frist i dag") [] = some stb
    ∧ stb.2 = true
    ∧ stb.1.notes = DBState.notes ⟨[], [], []⟩ ++ [(str "n1", str "Frist i dag")]
    ∧ stb.1.noteKeywords = DBState.noteKeywords ⟨[], [], []⟩
    ∧ stb.1.keywords = DBState.keywords ⟨[], [], []⟩ :=
  ⟨⟨by decide, by decide⟩,
   claim_C1_remote_failure
     ⟨str "key", none, none, none, Except.ok ⟨500, Except.ok (str "oops")⟩,
       fun _ => Except.error (str "unused"), fun _ => Except.error (str "unused")⟩
     0 stdWeekdays ⟨[], [], []⟩ (str "n1") (str "Frist i dag")
     (by decide) (by decide)⟩

end NotesApp
